import Mathlib

/-!
# cassandrastore: a session store over a wide-column table

A shallow embedding of `cassandrastore.go`.  The store's own functions
(`New`, `Save`, `insert`, `save`, `load`, `Delete`) are transcribed statement by
statement.  Its collaborators are parameters of the model:

* the database driver (`Driver`): what a prepared statement does to the table and
  whether it fails is left to the driver;
* the codec chain (`Codec`): `EncodeMulti` and `DecodeMulti` over `m.Codecs`;
* the wall clock and the UUID generator (`Runtime`): successive readings of
  `time.Now()` and successive results of `gocql.RandomUUID()`.

The statements sent to the database, the encoding calls and the log lines are
recorded in order in `World.trace`; the cookies handed to `http.SetCookie` are
collected in the `ResponseWriter`.

Modelling conventions.

* `time.Time` is an instant counted in nanoseconds (`Int`).  `Time.Add` is plain
  addition, `Time.Sub` saturates at the bounds of `time.Duration` (a signed
  64-bit count of nanoseconds), and `time.Second * time.Duration(n)` wraps
  modulo `2^64` like any `int64` product.
* `session.Values` is a Go map with `interface{}` keys, kept as an association
  list; reading a missing key gives the `nil` interface value.  Keys are compared
  as Go compares them: a floating-point NaN key equals no key, itself included,
  so it can be neither read nor deleted, only met by a `range` loop.
* `http.SetCookie` adds a header only for a cookie whose name is a valid cookie
  name (a non-empty HTTP token); for any other name it adds nothing.
* A Go `error` is `Option Error`, `none` being `nil`.  The functions that hold a
  type assertion `x.(time.Time)` return a `Ret`, whose `panic` case is the failed
  assertion.
* `session.Options` is always set (every session built by `New` has one).
* `insert` discards the error of `gocql.RandomUUID()`; the generator of the model
  always yields a UUID.
* A decode writes its destination only when it succeeds, and `load` is only ever
  called by `New`, on a session whose value map is still empty.
-/

namespace Cassandrastore

/-! ## Time -/

/-- An instant (`time.Time`), in nanoseconds. -/
abbrev Time := Int

/-- A `time.Duration`: a signed 64-bit count of nanoseconds. -/
abbrev Duration := Int

def minDuration : Duration := -(2 ^ 63)

def maxDuration : Duration := 2 ^ 63 - 1

/-- Two's complement wrap-around of a signed 64-bit integer. -/
def wrap64 (x : Int) : Int := (x + 2 ^ 63) % 2 ^ 64 - 2 ^ 63

/-- The constant `time.Second`. -/
def Second : Duration := 1000000000

/-- The expression `time.Second * time.Duration(maxAge)`. -/
def maxAgeDuration (maxAge : Int) : Duration := wrap64 (Second * maxAge)

/-- The method `Time.Add` of the standard library. -/
def Time.Add (t : Time) (d : Duration) : Time := t + d

/-- The method `Time.Sub` of the standard library: the difference, saturated to
the range of `Duration`. -/
def Time.Sub (t u : Time) : Duration :=
  if t - u < minDuration then minDuration
  else if maxDuration < t - u then maxDuration
  else t - u

/-! ## Values held by a session -/

/-- A value of type `interface{}` as found in `session.Values`. -/
inductive Value where
  | nil
  | time (t : Time)
  | str (s : String)
  | int (n : Int)
  deriving DecidableEq, Repr

/-- The type assertion `v.(time.Time)`; `none` is the run-time panic. -/
def Value.asTime : Value → Option Time
  | .time t => some t
  | _ => none

/-- A key of type `interface{}` as found in `session.Values`: a string, an
integer, or a floating-point NaN. -/
inductive Key where
  | str (s : String)
  | int (n : Int)
  | nan
  deriving DecidableEq, Repr

/-- The comparison `a == b` of two keys as the Go map makes it: NaN equals
nothing, not even itself. -/
def Key.same : Key → Key → Bool
  | .nan, _ => false
  | _, .nan => false
  | a, b => decide (a = b)

/-- The map `session.Values`. -/
abbrev Values := List (Key × Value)

/-- The entry found under a key, if any. -/
def Values.lookup (m : Values) (k : Key) : Option Value :=
  (m.find? (fun p => p.1.same k)).map (fun p => p.2)

/-- The read `m[k]`: the `nil` interface when the key is missing. -/
def Values.get (m : Values) (k : Key) : Value := (Values.lookup m k).getD Value.nil

/-- The built-in `delete(m, k)`. -/
def Values.delete (m : Values) (k : Key) : Values := m.filter (fun p => !p.1.same k)

/-- The assignment `m[k] = v`. -/
def Values.set (m : Values) (k : Key) (v : Value) : Values := (k, v) :: m.delete k

/-- The three deletions made before encoding, in the order of the source. -/
def Values.strip (m : Values) : Values :=
  ((m.delete (.str "created_on")).delete (.str "expires_on")).delete (.str "modified_on")

/-- The loop `for k := range m { delete(m, k) }`. -/
def Values.clear (m : Values) : Values := m.foldl (fun acc p => acc.delete p.1) m

/-! ## Sessions, cookies, requests -/

/-- The struct `sessions.Options`, with the fields the store copies. -/
structure Options where
  Path : String
  Domain : String
  MaxAge : Int
  Secure : Bool
  HttpOnly : Bool
  deriving DecidableEq, Repr

/-- The struct `sessions.Session`. -/
structure Session where
  name : String
  ID : String
  Values : Values
  Options : Options
  IsNew : Bool
  deriving DecidableEq, Repr

/-- An `http.Cookie`, with the fields `sessions.NewCookie` takes from its arguments. -/
structure Cookie where
  Name : String
  Value : String
  Path : String
  Domain : String
  MaxAge : Int
  Secure : Bool
  HttpOnly : Bool
  deriving DecidableEq, Repr

/-- The function `sessions.NewCookie`. -/
def NewCookie (name value : String) (options : Options) : Cookie :=
  { Name := name, Value := value, Path := options.Path, Domain := options.Domain,
    MaxAge := options.MaxAge, Secure := options.Secure, HttpOnly := options.HttpOnly }

/-- The cookies of an incoming request, as (name, value) pairs in header order. -/
abbrev Request := List (String × String)

/-- The method `r.Cookie(name)`: the value of the first cookie of that name. -/
def Request.Cookie (r : Request) (name : String) : Option String := r.lookup name

/-- The response under construction: its Set-Cookie headers, in the order added. -/
abbrev ResponseWriter := List Cookie

/-- Whether a character may appear in an HTTP token: a letter, a digit, or one of
the fifteen marks the standard library's token table admits. -/
def isTokenChar (c : Char) : Bool :=
  (48 ≤ c.toNat && c.toNat ≤ 57) || (65 ≤ c.toNat && c.toNat ≤ 90) ||
  (97 ≤ c.toNat && c.toNat ≤ 122) ||
  [33, 35, 36, 37, 38, 39, 42, 43, 45, 46, 94, 95, 96, 124, 126].contains c.toNat

/-- The check `isCookieNameValid` of the standard library: the name is not empty
and every character of it is a token character. -/
def isCookieNameValid (name : String) : Bool :=
  !name.toList.isEmpty && name.toList.all isTokenChar

/-- The function `http.SetCookie`: the header is added when the cookie's name is
valid, and nothing is added otherwise. -/
def SetCookie (rw : ResponseWriter) (cookie : Cookie) : ResponseWriter :=
  if isCookieNameValid cookie.Name then rw ++ [cookie] else rw

/-! ## Identifiers -/

/-- A `gocql.UUID`: sixteen bytes, kept as one 128-bit number. -/
abbrev UUID := Fin (2 ^ 128)

def hexDigit (n : Nat) : Char := "0123456789abcdef".toList.getD n '0'

/-- The thirty-two hexadecimal digits of a UUID, most significant first. -/
def UUID.hex (u : UUID) : List Char :=
  (List.range 32).map (fun i => hexDigit (u.val / 16 ^ (31 - i) % 16))

/-- Modelled from the spec: the method `UUID.String` of the driver, which renders
the identifier "in canonical dashed lowercase form" (8-4-4-4-12 digits). -/
def UUID.String (u : UUID) : String :=
  String.mk ((u.hex.take 8) ++ '-' :: ((u.hex.drop 8).take 4) ++ '-' :: ((u.hex.drop 12).take 4)
    ++ '-' :: ((u.hex.drop 16).take 4) ++ '-' :: (u.hex.drop 20))

/-! ## Errors and results -/

/-- A Go `error` value as the store can return it, told apart by where it was made. -/
inductive Error where
  | storage (msg : String)
  | codec (msg : String)
  | expired
  deriving DecidableEq, Repr

/-- How `insert`, `save` and `Save` end: `nil`, an error, or a failed type assertion. -/
inductive Ret where
  | nil
  | err (e : Error)
  | panic
  deriving DecidableEq, Repr

deriving instance DecidableEq for Except

/-! ## Collaborators -/

/-- The struct `sessionRow`. -/
structure sessionRow where
  id : String
  data : String
  createdOn : Time
  modifiedOn : Time
  expiresOn : Time
  deriving DecidableEq, Repr

/-- A prepared statement with its bound arguments, in the order `m.db.Query` gets them. -/
inductive Stmt where
  | stmtInsert (id : UUID) (encoded : String) (createdOn modifiedOn expiresOn : Time)
  | stmtUpdate (encoded : String) (createdOn expiresOn modifiedOn : Time) (id : String)
  | stmtDelete (id : String)
  | stmtSelect (id : String)
  deriving DecidableEq, Repr

/-- The database session `m.db`, over a database state `σ`: `Exec` runs a statement
and may fail, `Scan` runs the select and yields a row or fails. -/
structure Driver (σ : Type) where
  Exec : σ → Stmt → σ × Option String
  Scan : σ → String → Except String sessionRow

/-- The codec chain `m.Codecs` under `securecookie.EncodeMulti` and `DecodeMulti`,
at the two types the store uses it: the identifier and the value map. -/
structure Codec where
  EncodeID : String → String → Except String String
  DecodeID : String → String → Except String String
  EncodeValues : String → Values → Except String String
  DecodeValues : String → String → Except String Values

/-- The struct `CassandraStore`. -/
structure CassandraStore (σ : Type) where
  db : Driver σ
  Codecs : Codec
  Options : Options

/-- The clock and the UUID generator: the n-th reading of `time.Now()` and the n-th
result of `gocql.RandomUUID()`. -/
structure Runtime where
  Now : Nat → Time
  RandomUUID : Nat → UUID

/-- What the process log receives. -/
inductive LogLine where
  | text (s : String)
  | sessionExpired (expiresOn now : Time)
  deriving DecidableEq, Repr

/-- A recorded call: a statement sent to the database, an encoding, a log line. -/
inductive Event where
  | query (s : Stmt)
  | encodeValues (name : String) (values : Values)
  | encodeID (name : String) (id : String)
  | log (l : LogLine)
  deriving DecidableEq, Repr

/-- Whether the event is an insert, update or delete statement. -/
def Event.isWrite : Event → Bool
  | .query (.stmtInsert _ _ _ _ _) => true
  | .query (.stmtUpdate _ _ _ _ _) => true
  | .query (.stmtDelete _) => true
  | _ => false

/-- Everything outside the session: the database, the calls made so far, and how
many clock readings and UUIDs have been consumed. -/
structure World (σ : Type) where
  db : σ
  trace : List Event
  ticks : Nat
  drawn : Nat

/-- Append an event to the trace. -/
def World.emit {σ : Type} (w : World σ) (e : Event) : World σ :=
  { w with trace := w.trace ++ [e] }

/-- The call `time.Now()`. -/
def Now {σ : Type} (rt : Runtime) (w : World σ) : Time × World σ :=
  (rt.Now w.ticks, { w with ticks := w.ticks + 1 })

/-- The call `gocql.RandomUUID()`. -/
def RandomUUID {σ : Type} (rt : Runtime) (w : World σ) : UUID × World σ :=
  (rt.RandomUUID w.drawn, { w with drawn := w.drawn + 1 })

/-- The call `m.db.Query(stmt, args...).Exec()`. -/
def Exec {σ : Type} (m : CassandraStore σ) (s : Stmt) (w : World σ) : Option String × World σ :=
  ((m.db.Exec w.db s).2, { (w.emit (.query s)) with db := (m.db.Exec w.db s).1 })

/-! ## The store -/

/-- The method `CassandraStore.load`. -/
def load {σ : Type} (m : CassandraStore σ) (rt : Runtime) (session : Session) (w : World σ) :
    Session × World σ × Option Error :=
  let w1 := w.emit (.query (.stmtSelect session.ID))
  match m.db.Scan w.db session.ID with
  | .error scanErr => (session, w1, some (.storage scanErr))
  | .ok sess =>
    let (now, w2) := Now rt w1
    if Time.Sub sess.expiresOn now < 0 then
      let (now2, w3) := Now rt w2
      (session, w3.emit (.log (.sessionExpired sess.expiresOn now2)), some .expired)
    else
      match m.Codecs.DecodeValues session.name sess.data with
      | .error err => (session, w2, some (.codec err))
      | .ok values =>
        let values := values.set (.str "created_on") (.time sess.createdOn)
        let values := values.set (.str "modified_on") (.time sess.modifiedOn)
        let values := values.set (.str "expires_on") (.time sess.expiresOn)
        ({ session with Values := values }, w2, none)

/-- The first statements of `New`: `sessions.NewSession(m, name)` (an empty
identifier and an empty value map), the copy of the store's options, and
`session.IsNew = true`. -/
def NewSession {σ : Type} (m : CassandraStore σ) (name : String) : Session :=
  { name := name, ID := "", Values := [],
    Options := { Path := m.Options.Path, Domain := m.Options.Domain,
                 MaxAge := m.Options.MaxAge, Secure := m.Options.Secure,
                 HttpOnly := m.Options.HttpOnly },
    IsNew := true }

/-- The method `CassandraStore.New`. -/
def New {σ : Type} (m : CassandraStore σ) (rt : Runtime) (r : Request) (name : String)
    (w : World σ) : Session × World σ × Option Error :=
  let session : Session := NewSession m name
  match r.Cookie name with
  | none => (session, w, none)
  | some cook =>
    match m.Codecs.DecodeID name cook with
    | .error err => (session, w, some (.codec err))
    | .ok id =>
      let session := { session with ID := id }
      match load m rt session w with
      | (session, w1, none) => ({ session with IsNew := false }, w1, none)
      | (session, w1, some _) => (session, w1, none)

/-- The method `CassandraStore.insert`. -/
def insert {σ : Type} (m : CassandraStore σ) (rt : Runtime) (session : Session) (w : World σ) :
    Session × World σ × Ret :=
  let crOn := session.Values.get (.str "created_on")
  let created : Option (Time × World σ) :=
    if crOn = Value.nil then some (Now rt w) else crOn.asTime.map (fun t => (t, w))
  match created with
  | none => (session, w, .panic)
  | some (createdOn, w1) =>
    let modifiedOn := createdOn
    let exOn := session.Values.get (.str "expires_on")
    let expires : Option (Time × World σ) :=
      if exOn = Value.nil then
        let (now, w2) := Now rt w1
        some (now.Add (maxAgeDuration session.Options.MaxAge), w2)
      else exOn.asTime.map (fun t => (t, w1))
    match expires with
    | none => (session, w1, .panic)
    | some (expiresOn, w2) =>
      let session := { session with Values := session.Values.strip }
      let w3 := w2.emit (.encodeValues session.name session.Values)
      match m.Codecs.EncodeValues session.name session.Values with
      | .error encErr => (session, w3, .err (.codec encErr))
      | .ok encoded =>
        let (id, w4) := RandomUUID rt w3
        let (insErr, w5) := Exec m (.stmtInsert id encoded createdOn modifiedOn expiresOn) w4
        match insErr with
        | some e => (session, w5, .err (.storage e))
        | none => ({ session with ID := id.String }, w5, .nil)

/-- The method `CassandraStore.save`. -/
def save {σ : Type} (m : CassandraStore σ) (rt : Runtime) (session : Session) (w : World σ) :
    Session × World σ × Ret :=
  if session.IsNew = true then insert m rt session w
  else
    let crOn := session.Values.get (.str "created_on")
    let created : Option (Time × World σ) :=
      if crOn = Value.nil then some (Now rt w) else crOn.asTime.map (fun t => (t, w))
    match created with
    | none => (session, w, .panic)
    | some (createdOn, w1) =>
      let modifiedOn := createdOn
      let exOn := session.Values.get (.str "expires_on")
      let expires : Option (Time × World σ) :=
        if exOn = Value.nil then
          let (now, w2) := Now rt w1
          some (now.Add (maxAgeDuration session.Options.MaxAge),
                w2.emit (.log (.text "nil")))
        else
          match exOn.asTime with
          | none => none
          | some expiresOn =>
            let (now, w2) := Now rt w1
            if Time.Sub expiresOn (now.Add (maxAgeDuration session.Options.MaxAge)) < 0 then
              let (now2, w3) := Now rt w2
              some (now2.Add (maxAgeDuration session.Options.MaxAge), w3)
            else some (expiresOn, w2)
      match expires with
      | none => (session, w1, .panic)
      | some (expiresOn, w2) =>
        let session := { session with Values := session.Values.strip }
        let w3 := w2.emit (.encodeValues session.name session.Values)
        match m.Codecs.EncodeValues session.name session.Values with
        | .error encErr => (session, w3, .err (.codec encErr))
        | .ok encoded =>
          let (updErr, w4) :=
            Exec m (.stmtUpdate encoded createdOn expiresOn modifiedOn session.ID) w3
          match updErr with
          | some e => (session, w4, .err (.storage e))
          | none => (session, w4, .nil)

/-- The method `CassandraStore.Save`. -/
def Save {σ : Type} (m : CassandraStore σ) (rt : Runtime) (rw : ResponseWriter)
    (session : Session) (w : World σ) : ResponseWriter × Session × World σ × Ret :=
  let (session1, w1, err) :=
    if session.ID = "" then insert m rt session w else save m rt session w
  match err with
  | .nil =>
    let w2 := w1.emit (.encodeID session1.name session1.ID)
    match m.Codecs.EncodeID session1.name session1.ID with
    | .error e => (rw, session1, w2, .err (.codec e))
    | .ok encoded =>
      (SetCookie rw (NewCookie session1.name encoded session1.Options), session1, w2, .nil)
  | e => (rw, session1, w1, e)

/-- The method `CassandraStore.Delete`. -/
def Delete {σ : Type} (m : CassandraStore σ) (rw : ResponseWriter) (session : Session)
    (w : World σ) : ResponseWriter × Session × World σ × Option Error :=
  let options := { session.Options with MaxAge := -1 }
  let rw1 := SetCookie rw (NewCookie session.name "" options)
  let session := { session with Values := session.Values.clear }
  let (delErr, w1) := Exec m (.stmtDelete session.ID) w
  match delErr with
  | some e => (rw1, session, w1, some (.storage e))
  | none => (rw1, session, w1, none)

/-! ## Observations -/

/-- The events recorded between world `w` and a later world `w1`. -/
def World.issued {σ : Type} (w w1 : World σ) : List Event := w1.trace.drop w.trace.length

/-- The insert, update and delete statements among the events between `w` and `w1`. -/
def World.writes {σ : Type} (w w1 : World σ) : List Event :=
  (w.issued w1).filter Event.isWrite

/-- The three assignments `load` makes after decoding: the row's timestamps put
under the reserved keys, in the order of the source. -/
def Values.reinject (values : Values) (row : sessionRow) : Values :=
  ((values.set (.str "created_on") (.time row.createdOn)).set
    (.str "modified_on") (.time row.modifiedOn)).set (.str "expires_on") (.time row.expiresOn)

/-- The key a statement addresses: the canonical string of the UUID bound to an
insert, the identifier bound to an update, a delete or a select. -/
def Stmt.key : Stmt → String
  | .stmtInsert id _ _ _ _ => id.String
  | .stmtUpdate _ _ _ _ id => id
  | .stmtDelete id => id
  | .stmtSelect id => id

/-- The row an insert or update statement stores when it succeeds. -/
def Stmt.row : Stmt → Option sessionRow
  | .stmtInsert id encoded createdOn modifiedOn expiresOn =>
    some ⟨id.String, encoded, createdOn, modifiedOn, expiresOn⟩
  | .stmtUpdate encoded createdOn expiresOn modifiedOn id =>
    some ⟨id, encoded, createdOn, modifiedOn, expiresOn⟩
  | _ => none

/-- Whether the type assertion on a value read from the map is skipped or passes:
the value is `nil` (the assertion is not reached) or a `time.Time`. -/
def Value.isTimeOrNil : Value → Bool
  | .nil => true
  | .time _ => true
  | _ => false

/-- Whether `created_on` and `expires_on`, the two keys `insert` and `save` read,
are absent or hold timestamps, so that neither type assertion panics. -/
def Values.timestampsValid (v : Values) : Bool :=
  (v.get (.str "created_on")).isTimeOrNil && (v.get (.str "expires_on")).isTimeOrNil

/-- How many clock readings the derivation of `createdOn` consumes. -/
def createdTicks (v : Values) : Nat := if v.get (.str "created_on") = Value.nil then 1 else 0

/-- The `createdOn` that `insert` and `save` derive when the clock has been read
`t` times before the call. -/
def createdOnOf (rt : Runtime) (v : Values) (t : Nat) : Time :=
  match v.get (.str "created_on") with
  | .time c => c
  | _ => rt.Now t

/-- The `expiresOn` that `insert` derives. -/
def insertExpiresOnOf (rt : Runtime) (v : Values) (maxAge : Int) (t : Nat) : Time :=
  match v.get (.str "expires_on") with
  | .time e => e
  | _ => rt.Now (t + createdTicks v) + maxAgeDuration maxAge

/-- The `expiresOn` that `save` derives on the update path. -/
def saveExpiresOnOf (rt : Runtime) (v : Values) (maxAge : Int) (t : Nat) : Time :=
  match v.get (.str "expires_on") with
  | .time e =>
    if e < rt.Now (t + createdTicks v) + maxAgeDuration maxAge then
      rt.Now (t + createdTicks v + 1) + maxAgeDuration maxAge
    else e
  | _ => rt.Now (t + createdTicks v) + maxAgeDuration maxAge

/-- The log lines `save` writes on the update path before it encodes. -/
def saveLog (v : Values) : List Event :=
  if v.get (.str "expires_on") = Value.nil then [Event.log (LogLine.text "nil")] else []

/-- Whether `Save` takes the update path: the identifier is set and the session
is not marked new. -/
def Session.onUpdatePath (s : Session) : Bool := decide (s.ID ≠ "") && !s.IsNew

/-- The statement `Save` sends once the value map is encoded: the update keyed by
the session's identifier on the update path, the insert under the next UUID
otherwise. -/
def writeOf {σ : Type} (rt : Runtime) (s : Session) (w : World σ) (encoded : String) : Stmt :=
  if s.onUpdatePath then
    Stmt.stmtUpdate encoded (createdOnOf rt s.Values w.ticks)
      (saveExpiresOnOf rt s.Values s.Options.MaxAge w.ticks)
      (createdOnOf rt s.Values w.ticks) s.ID
  else
    Stmt.stmtInsert (rt.RandomUUID w.drawn) encoded (createdOnOf rt s.Values w.ticks)
      (createdOnOf rt s.Values w.ticks)
      (insertExpiresOnOf rt s.Values s.Options.MaxAge w.ticks)

/-- The events `Save` records up to and including the encoding of the value map. -/
def encodingOf (s : Session) : List Event :=
  (if s.onUpdatePath then saveLog s.Values else []) ++
    [Event.encodeValues s.name s.Values.strip]

/-- The session as `Save` leaves it once the write succeeded. -/
def savedOf (rt : Runtime) (s : Session) (drawn : Nat) : Session :=
  if s.onUpdatePath then { s with Values := s.Values.strip }
  else { s with Values := s.Values.strip, ID := (rt.RandomUUID drawn).String }

/-! ## Concrete collaborators

An in-memory table, a database that refuses every statement, two small codecs and
a ticking clock, on which the store can be run. -/

/-- Replace or add the row with the given key. -/
def upsert (rows : List sessionRow) (row : sessionRow) : List sessionRow :=
  row :: rows.filter (fun r => decide (r.id ≠ row.id))

/-- A table held in memory; no statement fails, a select of a missing key does. -/
def memDriver : Driver (List sessionRow) where
  Exec rows s :=
    match s with
    | .stmtInsert id encoded createdOn modifiedOn expiresOn =>
      (upsert rows ⟨id.String, encoded, createdOn, modifiedOn, expiresOn⟩, none)
    | .stmtUpdate encoded createdOn expiresOn modifiedOn id =>
      (upsert rows ⟨id, encoded, createdOn, modifiedOn, expiresOn⟩, none)
    | .stmtDelete id => (rows.filter (fun r => decide (r.id ≠ id)), none)
    | .stmtSelect _ => (rows, none)
  Scan rows id :=
    match rows.find? (fun r => decide (r.id = id)) with
    | some row => .ok row
    | none => .error "not found"

/-- A database that is unreachable: every statement fails and nothing is stored. -/
def downDriver : Driver (List sessionRow) where
  Exec rows _ := (rows, some "unavailable")
  Scan _ _ := .error "unavailable"

/-- A codec that passes identifiers through unchanged and knows one value map,
`book`, whose token is the string "blob". -/
def bookCodec (book : Values) : Codec where
  EncodeID _ id := .ok id
  DecodeID _ token := .ok token
  EncodeValues _ values := if values = book then .ok "blob" else .error "unknown value"
  DecodeValues _ token := if token = "blob" then .ok book else .error "bad token"

/-- A codec chain without codecs: every call fails. -/
def emptyCodec : Codec where
  EncodeID _ _ := .error "securecookie: no codecs provided"
  DecodeID _ _ := .error "securecookie: no codecs provided"
  EncodeValues _ _ := .error "securecookie: no codecs provided"
  DecodeValues _ _ := .error "securecookie: no codecs provided"

/-- A clock that starts at `start` and advances one nanosecond per reading, and a
generator that hands out the UUIDs 1, 2, 3 and so on. -/
def tickingRuntime (start : Time) : Runtime where
  Now n := start + n
  RandomUUID n := Fin.ofNat (n + 1)

/-- A clock stopped at `now`, with the same generator. -/
def frozenRuntime (now : Time) : Runtime where
  Now _ := now
  RandomUUID n := Fin.ofNat (n + 1)

/-- The default options of a store serving path "/" with the given max-age. -/
def defaultOptions (maxAge : Int) : Options :=
  { Path := "/", Domain := "", MaxAge := maxAge, Secure := false, HttpOnly := false }

/-- The world before any call: the given table, nothing recorded. -/
def World.init {σ : Type} (db : σ) : World σ := { db := db, trace := [], ticks := 0, drawn := 0 }

/-- A store over the in-memory table whose codec knows the value map `book`. -/
def memStore (maxAge : Int) (book : Values) : CassandraStore (List sessionRow) :=
  { db := memDriver, Codecs := bookCodec book, Options := defaultOptions maxAge }

/-- A store whose database is unreachable. -/
def downStore (maxAge : Int) (book : Values) : CassandraStore (List sessionRow) :=
  { db := downDriver, Codecs := bookCodec book, Options := defaultOptions maxAge }

/-- A store over the in-memory table whose codec chain is empty. -/
def uncodedStore (maxAge : Int) : CassandraStore (List sessionRow) :=
  { db := memDriver, Codecs := emptyCodec, Options := defaultOptions maxAge }

/-- A value map a handler filled in: one entry, no reserved key. -/
def aliceValues : Values := [(Key.str "user", Value.str "alice")]

/-- A session as New returns it for a request without cookie, after the handler
stored `aliceValues` in it. -/
def freshAlice : Session :=
  { name := "sid", ID := "", Values := aliceValues, Options := defaultOptions 60, IsNew := true }

/-- A session not yet stored in which a handler put an `expires_on` (400) earlier
than its `created_on` (500). -/
def backdatedAlice : Session :=
  { name := "sid", ID := "", IsNew := true, Options := defaultOptions 60,
    Values := [(Key.str "expires_on", Value.time 400), (Key.str "created_on", Value.time 500),
               (Key.str "user", Value.str "alice")] }

/-- A stored session (identifier "abc") whose `created_on` lies far in the future
and which carries no `expires_on`. -/
def postdatedAlice : Session :=
  { name := "sid", ID := "abc", IsNew := false, Options := defaultOptions 60,
    Values := [(Key.str "created_on", Value.time 100000000000000),
               (Key.str "user", Value.str "alice")] }

/-- A session whose name holds a space, so is not a valid cookie name, and whose
value map a handler filled with a string key, an integer key and a NaN key. -/
def spacedSession : Session :=
  { name := "my session", ID := "abc",
    Values := [(Key.str "user", Value.str "alice"), (Key.int 42, Value.str "x"),
               (Key.nan, Value.str "n")],
    Options := defaultOptions 60, IsNew := false }

/-- A session as New returns it after loading the row "abc" (created at 500,
expiring at 2000) that holds `aliceValues`. -/
def loadedAlice : Session :=
  { name := "sid", ID := "abc",
    Values := [(Key.str "expires_on", Value.time 2000), (Key.str "modified_on", Value.time 500),
               (Key.str "created_on", Value.time 500), (Key.str "user", Value.str "alice")],
    Options := defaultOptions 60, IsNew := false }

/-! ## The value map -/

/-- Two keys compare equal exactly when they are the same key and not NaN. -/
theorem same_eq_true_iff (a b : Key) : a.same b = true ↔ a = b ∧ a ≠ Key.nan := by
  cases a <;> cases b <;> simp [Key.same]

/-- A deletion removes the key and leaves every other key as it was. -/
theorem lookup_delete (m : Values) (k k1 : Key) :
    Values.lookup (Values.delete m k) k1 =
      if k.same k1 then none else Values.lookup m k1 := by
  induction m with
  | nil => simp [Values.lookup, Values.delete]
  | cons p m ih =>
    unfold Values.lookup Values.delete at ih ⊢
    by_cases hpk : p.1.same k = true
    · -- the head is deleted
      have hhead : k.same k1 = false → p.1.same k1 = false := by
        intro hkk
        cases hp1 : p.1.same k1
        · rfl
        · obtain ⟨e1, n1⟩ := (same_eq_true_iff _ _).mp hpk
          obtain ⟨e2, -⟩ := (same_eq_true_iff _ _).mp hp1
          have : k.same k1 = true :=
            (same_eq_true_iff _ _).mpr ⟨e1.symm.trans e2, by rw [← e1]; exact n1⟩
          rw [this] at hkk
          cases hkk
      simp only [List.filter_cons, hpk, Bool.not_true, Bool.false_eq_true, if_false]
      rw [ih]
      by_cases hkk : k.same k1 = true
      · simp [hkk]
      · have hf : k.same k1 = false := by simpa using hkk
        simp [hf, List.find?_cons, hhead hf]
    · have hpf : p.1.same k = false := by simpa using hpk
      simp only [List.filter_cons, hpf, Bool.not_false, if_true, List.find?_cons]
      cases hp1 : p.1.same k1
      · simp only
        exact ih
      · have : k.same k1 = false := by
          cases hkk : k.same k1
          · rfl
          · obtain ⟨e1, -⟩ := (same_eq_true_iff _ _).mp hkk
            obtain ⟨e2, n2⟩ := (same_eq_true_iff _ _).mp hp1
            have : p.1.same k = true :=
              (same_eq_true_iff _ _).mpr ⟨e2.trans e1.symm, n2⟩
            rw [this] at hpf
            cases hpf
        simp [this]

/-- An assignment binds the key and leaves every other key as it was. -/
theorem lookup_set (m : Values) (k k1 : Key) (v : Value) :
    Values.lookup (Values.set m k v) k1 =
      if k.same k1 then some v else Values.lookup m k1 := by
  have hd := lookup_delete m k k1
  unfold Values.lookup at hd ⊢
  unfold Values.set
  by_cases h : k.same k1 = true
  · simp [List.find?_cons, h]
  · have hf : k.same k1 = false := by simpa using h
    simp only [hf, Bool.false_eq_true, if_false] at hd ⊢
    simp only [List.find?_cons, hf]
    exact hd

/-- A string key compares equal to exactly itself. -/
theorem str_same (a : String) (k : Key) : (Key.str a).same k = decide (k = Key.str a) := by
  cases k <;> simp [Key.same, eq_comm]

/-- Any key compares equal to a string key exactly when it is that string key. -/
theorem same_str (a : String) (k : Key) : k.same (Key.str a) = decide (k = Key.str a) := by
  cases k <;> simp [Key.same]

/-- Stripping keeps exactly the entries whose key is none of the three reserved
keys, in their order. -/
theorem strip_eq_filter (m : Values) :
    Values.strip m = m.filter (fun q => decide (q.1 ≠ Key.str "created_on" ∧
      q.1 ≠ Key.str "modified_on" ∧ q.1 ≠ Key.str "expires_on")) := by
  unfold Values.strip Values.delete
  rw [List.filter_filter, List.filter_filter]
  apply List.filter_congr
  intro q _
  simp only [same_str]
  by_cases h1 : q.1 = Key.str "created_on" <;> by_cases h2 : q.1 = Key.str "modified_on" <;>
    by_cases h3 : q.1 = Key.str "expires_on" <;> simp [h1, h2, h3]

/-- The stripped map holds none of the reserved keys and every other key unchanged. -/
theorem lookup_strip (m : Values) (k : Key) :
    Values.lookup (Values.strip m) k =
      if k = Key.str "created_on" ∨ k = Key.str "modified_on" ∨ k = Key.str "expires_on"
      then none else Values.lookup m k := by
  simp only [Values.strip, lookup_delete, str_same]
  by_cases h1 : k = Key.str "created_on" <;> by_cases h2 : k = Key.str "modified_on" <;>
    by_cases h3 : k = Key.str "expires_on" <;>
    simp [h1, h2, h3]

/-- A deletion of a key the map does not hold changes nothing. -/
theorem delete_of_lookup_none (m : Values) (k : Key) (h : Values.lookup m k = none) :
    Values.delete m k = m := by
  unfold Values.lookup at h
  unfold Values.delete
  simp only [Option.map_eq_none', List.find?_eq_none] at h
  apply List.filter_eq_self.mpr
  intro p hp
  simpa using h p hp

/-- Stripping a map that holds none of the three reserved keys changes nothing. -/
theorem strip_of_lookup_none (m : Values)
    (hc : Values.lookup m (Key.str "created_on") = none)
    (hm : Values.lookup m (Key.str "modified_on") = none)
    (he : Values.lookup m (Key.str "expires_on") = none) : Values.strip m = m := by
  unfold Values.strip
  rw [delete_of_lookup_none m _ hc, delete_of_lookup_none m _ he, delete_of_lookup_none m _ hm]

theorem clear_fold (l acc : Values) :
    l.foldl (fun a p => Values.delete a p.1) acc =
      acc.filter (fun q => l.all (fun p => !q.1.same p.1)) := by
  induction l generalizing acc with
  | nil => simp
  | cons p l ih =>
    simp only [List.foldl_cons, List.all_cons]
    rw [ih]
    unfold Values.delete
    rw [List.filter_filter]
    apply List.filter_congr
    intro q _
    exact Bool.and_comm _ _

/-- The range-delete loop removes every entry but those under a NaN key. -/
theorem clear_eq_filter_nan (m : Values) :
    Values.clear m = m.filter (fun q => decide (q.1 = Key.nan)) := by
  unfold Values.clear
  rw [clear_fold]
  apply List.filter_congr
  intro q hq
  by_cases hn : q.1 = Key.nan
  · simp only [hn, decide_True, List.all_eq_true]
    intro p _
    simp [Key.same]
  · simp only [hn, decide_False]
    apply Bool.eq_false_iff.mpr
    intro hall
    have := (List.all_eq_true.mp hall) q hq
    have hs : q.1.same q.1 = true := (same_eq_true_iff _ _).mpr ⟨rfl, hn⟩
    simp [hs] at this

/-- The range-delete loop empties a map that holds no NaN key. -/
theorem clear_eq_nil (m : Values) (h : ∀ q ∈ m, q.1 ≠ Key.nan) : Values.clear m = [] := by
  rw [clear_eq_filter_nan]
  apply List.filter_eq_nil_iff.mpr
  intro q hq
  simpa using h q hq

/-! ## Time and traces -/

/-- Saturation keeps the sign: the difference is negative exactly when `t` is before `u`. -/
theorem Sub_neg_iff (t u : Time) : Time.Sub t u < 0 ↔ t < u := by
  unfold Time.Sub minDuration maxDuration
  unfold Time Duration at *
  split_ifs with h1 h2 <;> constructor <;> intro h <;> omega

/-- Without overflow the duration of `maxAge` seconds is the plain product. -/
theorem maxAgeDuration_eq (maxAge : Int) (hlo : minDuration ≤ Second * maxAge)
    (hhi : Second * maxAge ≤ maxDuration) : maxAgeDuration maxAge = Second * maxAge := by
  unfold maxAgeDuration wrap64
  unfold minDuration at hlo
  unfold maxDuration at hhi
  unfold Duration at *
  generalize Second * maxAge = x at *
  omega

theorem issued_mk {σ : Type} (w : World σ) (db : σ) (l : List Event) (t d : Nat) :
    w.issued { db := db, trace := w.trace ++ l, ticks := t, drawn := d } = l := by
  simp [World.issued]

theorem issued_append {σ : Type} (w w1 : World σ) (l : List Event)
    (h : w1.trace = w.trace ++ l) : w.issued w1 = l := by
  simp [World.issued, h]

theorem writes_append {σ : Type} (w w1 : World σ) (l : List Event)
    (h : w1.trace = w.trace ++ l) : w.writes w1 = l.filter Event.isWrite := by
  simp [World.writes, issued_append w w1 l h]

theorem issued_self {σ : Type} (w : World σ) : w.issued w = [] := by
  simp [World.issued]

theorem writes_mk {σ : Type} (w : World σ) (db : σ) (l : List Event) (t d : Nat) :
    w.writes { db := db, trace := w.trace ++ l, ticks := t, drawn := d } =
      l.filter Event.isWrite := by
  simp [World.writes, issued_mk]

theorem writes_self {σ : Type} (w : World σ) : w.writes w = [] := by
  simp [World.writes, issued_self]

/-! ## Load and New -/

/-- What `load` never touches: identifier, is-new, name, options and the table. -/
theorem load_frame {σ : Type} (m : CassandraStore σ) (rt : Runtime) (session : Session)
    (w : World σ) :
    (load m rt session w).1.ID = session.ID ∧
    (load m rt session w).1.IsNew = session.IsNew ∧
    (load m rt session w).1.name = session.name ∧
    (load m rt session w).1.Options = session.Options ∧
    (load m rt session w).2.1.db = w.db ∧
    w.writes (load m rt session w).2.1 = [] := by
  unfold load
  cases hscan : m.db.Scan w.db session.ID with
  | error e => simp [World.emit, writes_mk, Event.isWrite]
  | ok row =>
    simp only [Now, World.emit]
    split
    · simp [writes_mk, Event.isWrite]
    · cases hdec : m.Codecs.DecodeValues session.name row.data with
      | error e => simp [writes_mk, Event.isWrite]
      | ok values => simp [writes_mk, Event.isWrite]

/-- C2: for every request and store state New returns a session (named as asked,
with a copy of the store's options); its error is non-nil if and only if a
cookie of that name is present and its value fails to decode, and is then the
codec's error; the error is nil when no cookie is present and when the cookie
decodes but the load fails; and the session has is-new = false if and only if the
cookie is present, decodes, and the load succeeds, is-new = true otherwise. -/
theorem New_error_iff_cookie_undecodable {σ : Type} (m : CassandraStore σ) (rt : Runtime)
    (r : Request) (name : String) (w : World σ) :
    (New m rt r name w).1.name = name ∧
    (New m rt r name w).1.Options = m.Options ∧
    ((New m rt r name w).2.2 ≠ none ↔
      ∃ cook e, r.Cookie name = some cook ∧ m.Codecs.DecodeID name cook = .error e) ∧
    (∀ cook e, r.Cookie name = some cook → m.Codecs.DecodeID name cook = .error e →
      (New m rt r name w).2.2 = some (.codec e)) ∧
    (r.Cookie name = none → (New m rt r name w).2.2 = none) ∧
    (∀ cook id, r.Cookie name = some cook → m.Codecs.DecodeID name cook = .ok id →
      (load m rt { NewSession m name with ID := id } w).2.2 ≠ none →
      (New m rt r name w).2.2 = none) ∧
    ((New m rt r name w).1.IsNew = false ↔
      ∃ cook id, r.Cookie name = some cook ∧ m.Codecs.DecodeID name cook = .ok id ∧
        (load m rt { NewSession m name with ID := id } w).2.2 = none) ∧
    ((New m rt r name w).1.IsNew = true ↔
      ¬ ∃ cook id, r.Cookie name = some cook ∧ m.Codecs.DecodeID name cook = .ok id ∧
        (load m rt { NewSession m name with ID := id } w).2.2 = none) := by
  have hopt : Options.mk m.Options.Path m.Options.Domain m.Options.MaxAge m.Options.Secure
      m.Options.HttpOnly = m.Options := rfl
  cases hcook : r.Cookie name with
  | none => simp [New, hcook]; simp [NewSession]
  | some cook =>
    cases hdec : m.Codecs.DecodeID name cook with
    | error e =>
      simp [New, hcook, hdec]
      simp [NewSession]
      refine ⟨fun c e1 hc h1 => ?_, fun c id hc h1 => ?_⟩
      · subst hc
        rw [hdec] at h1
        cases h1
        rfl
      · subst hc
        rw [hdec] at h1
        cases h1
    | ok id =>
      have hf := load_frame m rt { NewSession m name with ID := id } w
      rcases hload : load m rt { NewSession m name with ID := id } w with ⟨s1, w1, err⟩
      rw [hload] at hf
      obtain ⟨-, hnew, hname, hopts, -, -⟩ := hf
      have hopts1 : s1.Options = m.Options := hopts.trans hopt
      have hne : ∀ (c e : String), cook = c → ¬ m.Codecs.DecodeID name c = Except.error e := by
        intro c e hc h1
        subst hc
        rw [hdec] at h1
        cases h1
      cases err with
      | none =>
        simp [New, hcook, hdec, hload]
        exact ⟨hname, hopts1, hne⟩
      | some e =>
        simp [New, hcook, hdec, hload]
        exact ⟨hname, hopts1, hne, hnew⟩

/-- C1 (as amended): when the cookie is present and decodes to an identifier but
the load fails, New returns no error and a session with is-new = true whose
identifier is the decoded one (it is not reset to empty), and New changes nothing
in storage: it issues no insert, update or delete. -/
theorem New_load_failure_keeps_decoded_identifier {σ : Type} (m : CassandraStore σ)
    (rt : Runtime) (r : Request) (name : String) (w : World σ) (cook id : String)
    (hcook : r.Cookie name = some cook) (hdec : m.Codecs.DecodeID name cook = .ok id)
    (hload : (load m rt { NewSession m name with ID := id } w).2.2 ≠ none) :
    (New m rt r name w).1.IsNew = true ∧
    (New m rt r name w).1.ID = id ∧
    (New m rt r name w).2.2 = none ∧
    (New m rt r name w).2.1.db = w.db ∧
    w.writes (New m rt r name w).2.1 = [] := by
  have hf := load_frame m rt { NewSession m name with ID := id } w
  rcases hl : load m rt { NewSession m name with ID := id } w with ⟨s1, w1, err⟩
  rw [hl] at hf hload
  obtain ⟨hid, hnew, -, -, hdb, hwr⟩ := hf
  cases err with
  | none => exact absurd rfl hload
  | some e =>
    simp [New, hcook, hdec, hl]
    exact ⟨hnew, hid, hdb, hwr⟩

/-- C1 witness: a cookie naming a row that expired long ago. -/
theorem New_load_failure_keeps_decoded_identifier_witness :
    (New (memStore 60 []) (tickingRuntime 1000) [("sid", "abc")] "sid"
        (World.init [⟨"abc", "blob", 1, 1, 5⟩])).1.IsNew = true ∧
    (New (memStore 60 []) (tickingRuntime 1000) [("sid", "abc")] "sid"
        (World.init [⟨"abc", "blob", 1, 1, 5⟩])).1.ID = "abc" ∧
    (New (memStore 60 []) (tickingRuntime 1000) [("sid", "abc")] "sid"
        (World.init [⟨"abc", "blob", 1, 1, 5⟩])).2.2 = none ∧
    (New (memStore 60 []) (tickingRuntime 1000) [("sid", "abc")] "sid"
        (World.init [⟨"abc", "blob", 1, 1, 5⟩])).2.1.db = [⟨"abc", "blob", 1, 1, 5⟩] ∧
    (World.init [⟨"abc", "blob", 1, 1, 5⟩]).writes
      (New (memStore 60 []) (tickingRuntime 1000) [("sid", "abc")] "sid"
        (World.init [⟨"abc", "blob", 1, 1, 5⟩])).2.1 = [] :=
  New_load_failure_keeps_decoded_identifier (memStore 60 []) (tickingRuntime 1000)
    [("sid", "abc")] "sid" (World.init [⟨"abc", "blob", 1, 1, 5⟩]) "abc" "abc"
    (by decide) (by decide) (by decide)

/-- C1 counterexample: the request carries a cookie that decodes to "abc", the row
"abc" expired (expires_on = 5, the clock reads 1000), so the load fails with the
expiry error; the session New returns has is-new = true but its identifier is
"abc", not empty. -/
theorem New_identifier_empty_after_load_failure_counterexample :
    Request.Cookie [("sid", "abc")] "sid" = some "abc" ∧
    (memStore 60 []).Codecs.DecodeID "sid" "abc" = .ok "abc" ∧
    (load (memStore 60 []) (tickingRuntime 1000)
        { NewSession (memStore 60 []) "sid" with ID := "abc" }
        (World.init [⟨"abc", "blob", 1, 1, 5⟩])).2.2 = some Error.expired ∧
    ¬ ((New (memStore 60 []) (tickingRuntime 1000) [("sid", "abc")] "sid"
          (World.init [⟨"abc", "blob", 1, 1, 5⟩])).1.IsNew = true ∧
       (New (memStore 60 []) (tickingRuntime 1000) [("sid", "abc")] "sid"
          (World.init [⟨"abc", "blob", 1, 1, 5⟩])).1.ID = "") := by
  decide

/-- C3 (as amended): for every row the select returns and every clock value read
at the expiry check, load fails with the expiry error if and only if
row.expires_on < now, strictly: a row whose expires_on equals now is accepted.
When load fails so, the session is left as it was, its value map without any
decoded or reinjected entry. -/
theorem load_expired_iff_expires_before_now {σ : Type} (m : CassandraStore σ) (rt : Runtime)
    (session : Session) (w : World σ) (row : sessionRow)
    (hrow : m.db.Scan w.db session.ID = .ok row) :
    ((load m rt session w).2.2 = some Error.expired ↔ row.expiresOn < rt.Now w.ticks) ∧
    (row.expiresOn = rt.Now w.ticks → (load m rt session w).2.2 ≠ some Error.expired) ∧
    ((load m rt session w).2.2 = some Error.expired → (load m rt session w).1 = session) := by
  have hsub := Sub_neg_iff row.expiresOn (rt.Now w.ticks)
  by_cases hexp : row.expiresOn < rt.Now w.ticks
  · have h1 : Time.Sub row.expiresOn (rt.Now w.ticks) < 0 := hsub.mpr hexp
    simp [load, hrow, Now, World.emit, h1, hexp]
    intro h2
    rw [h2] at hexp
    exact absurd hexp (lt_irrefl _)
  · have h1 : ¬ Time.Sub row.expiresOn (rt.Now w.ticks) < 0 := fun h => hexp (hsub.mp h)
    cases hdec : m.Codecs.DecodeValues session.name row.data with
    | error e => simp [load, hrow, Now, World.emit, h1, hexp, hdec]
    | ok values => simp [load, hrow, Now, World.emit, h1, hexp, hdec]

/-- C3 witness: a row that expired at 5, read when the clock shows 1000. -/
theorem load_expired_iff_expires_before_now_witness :
    ((load (memStore 60 []) (tickingRuntime 1000) { NewSession (memStore 60 []) "sid" with ID := "abc" }
          (World.init [⟨"abc", "blob", 1, 1, 5⟩])).2.2 = some Error.expired ↔
        (5 : Int) < (tickingRuntime 1000).Now 0) ∧
    ((5 : Int) = (tickingRuntime 1000).Now 0 →
      (load (memStore 60 []) (tickingRuntime 1000) { NewSession (memStore 60 []) "sid" with ID := "abc" }
          (World.init [⟨"abc", "blob", 1, 1, 5⟩])).2.2 ≠ some Error.expired) ∧
    ((load (memStore 60 []) (tickingRuntime 1000) { NewSession (memStore 60 []) "sid" with ID := "abc" }
          (World.init [⟨"abc", "blob", 1, 1, 5⟩])).2.2 = some Error.expired →
      (load (memStore 60 []) (tickingRuntime 1000) { NewSession (memStore 60 []) "sid" with ID := "abc" }
          (World.init [⟨"abc", "blob", 1, 1, 5⟩])).1 =
        { NewSession (memStore 60 []) "sid" with ID := "abc" }) :=
  load_expired_iff_expires_before_now (memStore 60 []) (tickingRuntime 1000)
    { NewSession (memStore 60 []) "sid" with ID := "abc" }
    (World.init [⟨"abc", "blob", 1, 1, 5⟩]) ⟨"abc", "blob", 1, 1, 5⟩ (by decide)

/-- C3 counterexample: the select returns a row whose expires_on is 1000 and the
clock reads exactly 1000 at the expiry check, so row.expires_on ≤ now holds; yet
load does not fail with the expiry error: it succeeds. -/
theorem load_rejects_row_expiring_now_counterexample :
    (memStore 60 []).db.Scan [⟨"abc", "blob", 1, 1, 1000⟩] "abc" =
      .ok ⟨"abc", "blob", 1, 1, 1000⟩ ∧
    (1000 : Int) ≤ (frozenRuntime 1000).Now 0 ∧
    (load (memStore 60 []) (frozenRuntime 1000)
        { NewSession (memStore 60 []) "sid" with ID := "abc" }
        (World.init [⟨"abc", "blob", 1, 1, 1000⟩])).2.2 = none ∧
    ¬ ((load (memStore 60 []) (frozenRuntime 1000)
        { NewSession (memStore 60 []) "sid" with ID := "abc" }
        (World.init [⟨"abc", "blob", 1, 1, 1000⟩])).2.2 = some Error.expired ↔
      (1000 : Int) ≤ (frozenRuntime 1000).Now 0) := by
  decide

/-! ## Delete -/

/-- What Delete does, for every session: it hands `http.SetCookie` one cookie named
after the session, with an empty value, Max-Age = -1 and the session's path,
domain, secure and http-only, so the header is on the response when the name is
a valid cookie name; it keeps the session's options and identifier; it removes
every entry of the value map but those under a NaN key; and it issues exactly one
statement, the storage Delete for the session's identifier, whose error, if any,
it returns. -/
theorem Delete_effects {σ : Type} (m : CassandraStore σ)
    (rw : ResponseWriter) (session : Session) (w : World σ) :
    (Delete m rw session w).1 =
      SetCookie rw (NewCookie session.name "" { session.Options with MaxAge := -1 }) ∧
    (isCookieNameValid session.name = true →
      (Delete m rw session w).1 =
        rw ++ [{ Name := session.name, Value := "", Path := session.Options.Path,
                 Domain := session.Options.Domain, MaxAge := -1,
                 Secure := session.Options.Secure, HttpOnly := session.Options.HttpOnly }]) ∧
    (Delete m rw session w).2.1.Options = session.Options ∧
    (Delete m rw session w).2.1.ID = session.ID ∧
    (Delete m rw session w).2.1.Values =
      session.Values.filter (fun q => decide (q.1 = Key.nan)) ∧
    ((∀ q ∈ session.Values, q.1 ≠ Key.nan) → (Delete m rw session w).2.1.Values = []) ∧
    w.issued (Delete m rw session w).2.2.1 = [Event.query (Stmt.stmtDelete session.ID)] ∧
    (Delete m rw session w).2.2.1.db = (m.db.Exec w.db (Stmt.stmtDelete session.ID)).1 ∧
    (Delete m rw session w).2.2.2 =
      (m.db.Exec w.db (Stmt.stmtDelete session.ID)).2.map Error.storage := by
  have hnil : (∀ q ∈ session.Values, q.1 ≠ Key.nan) → Values.clear session.Values = [] :=
    clear_eq_nil session.Values
  have hvalid : isCookieNameValid session.name = true →
      SetCookie rw (NewCookie session.name "" { session.Options with MaxAge := -1 }) =
        rw ++ [NewCookie session.name "" { session.Options with MaxAge := -1 }] := by
    intro h
    simp [SetCookie, NewCookie, h]
  have h1 : (Delete m rw session w).1 =
      SetCookie rw (NewCookie session.name "" { session.Options with MaxAge := -1 }) := by
    cases hexec : (m.db.Exec w.db (Stmt.stmtDelete session.ID)).2 <;>
      simp [Delete, Exec, hexec]
  have h5 : (Delete m rw session w).2.1.Values =
      session.Values.filter (fun q => decide (q.1 = Key.nan)) := by
    cases hexec : (m.db.Exec w.db (Stmt.stmtDelete session.ID)).2 <;>
      simp [Delete, Exec, hexec, clear_eq_filter_nan]
  refine ⟨h1, fun h => by rw [h1]; exact hvalid h, ?_, ?_, h5, ?_, ?_, ?_, ?_⟩
  · cases hexec : (m.db.Exec w.db (Stmt.stmtDelete session.ID)).2 <;>
      simp [Delete, Exec, hexec]
  · cases hexec : (m.db.Exec w.db (Stmt.stmtDelete session.ID)).2 <;>
      simp [Delete, Exec, hexec]
  · intro h
    rw [h5, ← clear_eq_filter_nan]
    exact hnil h
  · cases hexec : (m.db.Exec w.db (Stmt.stmtDelete session.ID)).2 <;>
      simp [Delete, Exec, hexec, World.emit, issued_mk]
  · cases hexec : (m.db.Exec w.db (Stmt.stmtDelete session.ID)).2 <;>
      simp [Delete, Exec, hexec]
  · cases hexec : (m.db.Exec w.db (Stmt.stmtDelete session.ID)).2 <;>
      simp [Delete, Exec, hexec]

/-- C10: Delete run on a session named "my session" (identifier "abc") whose value
map holds the keys "user", 42 and NaN, with an empty response and the row "abc"
in the table. The claim has Delete emit one cookie named after the session and
leave the value map without entries. The code does neither here: the name is not
a valid cookie name, so the response stays without any Set-Cookie header, and
the range-delete loop cannot remove the NaN key, so one entry is left. The
storage Delete for "abc" is issued and succeeds, and the options and the
identifier are unchanged, as claimed. -/
theorem Delete_spaced_name_and_nan_key :
    isCookieNameValid spacedSession.name = false ∧
    (Delete (memStore 60 aliceValues) [] spacedSession
        (World.init [⟨"abc", "blob", 500, 500, 2000⟩])).1 = [] ∧
    (Delete (memStore 60 aliceValues) [] spacedSession
        (World.init [⟨"abc", "blob", 500, 500, 2000⟩])).2.1.Values =
      [(Key.nan, Value.str "n")] ∧
    (Delete (memStore 60 aliceValues) [] spacedSession
        (World.init [⟨"abc", "blob", 500, 500, 2000⟩])).2.1.Options = spacedSession.Options ∧
    (Delete (memStore 60 aliceValues) [] spacedSession
        (World.init [⟨"abc", "blob", 500, 500, 2000⟩])).2.1.ID = "abc" ∧
    (World.init [⟨"abc", "blob", 500, 500, 2000⟩]).issued
        (Delete (memStore 60 aliceValues) [] spacedSession
          (World.init [⟨"abc", "blob", 500, 500, 2000⟩])).2.2.1 =
      [Event.query (Stmt.stmtDelete "abc")] ∧
    (Delete (memStore 60 aliceValues) [] spacedSession
        (World.init [⟨"abc", "blob", 500, 500, 2000⟩])).2.2.1.db = [] ∧
    (Delete (memStore 60 aliceValues) [] spacedSession
        (World.init [⟨"abc", "blob", 500, 500, 2000⟩])).2.2.2 = none := by
  decide

/-! ## The write path -/

/-- The insert path stops at a failed type assertion before anything is recorded. -/
theorem insert_panic {σ : Type} (m : CassandraStore σ) (rt : Runtime) (session : Session)
    (w : World σ) (h : session.Values.timestampsValid = false) :
    (insert m rt session w).2.2 = Ret.panic ∧ (insert m rt session w).1 = session ∧
    (insert m rt session w).2.1.trace = w.trace ∧ (insert m rt session w).2.1.db = w.db := by
  rcases hcr : session.Values.get (Key.str "created_on") with _ | c | c | c <;>
  rcases hex : session.Values.get (Key.str "expires_on") with _ | e | e | e <;>
  simp [Values.timestampsValid, Value.isTimeOrNil, hcr, hex] at h <;>
  simp [insert, hcr, hex, Value.asTime, Now]

/-- The insert path returns the encoding error; the map is stripped, nothing is sent. -/
theorem insert_encode_error {σ : Type} (m : CassandraStore σ) (rt : Runtime) (session : Session)
    (w : World σ) (x : String) (h : session.Values.timestampsValid = true)
    (henc : m.Codecs.EncodeValues session.name session.Values.strip = .error x) :
    (insert m rt session w).2.2 = Ret.err (Error.codec x) ∧
    (insert m rt session w).1 = { session with Values := session.Values.strip } ∧
    (insert m rt session w).2.1.trace =
      w.trace ++ [Event.encodeValues session.name session.Values.strip] ∧
    (insert m rt session w).2.1.db = w.db := by
  rcases hcr : session.Values.get (Key.str "created_on") with _ | c | c | c <;>
  rcases hex : session.Values.get (Key.str "expires_on") with _ | e | e | e <;>
  simp [Values.timestampsValid, Value.isTimeOrNil, hcr, hex] at h <;>
  simp [insert, hcr, hex, Value.asTime, Now, henc, World.emit, Time.Add]

/-- The insert path once the map is encoded: one insert under the next UUID. -/
theorem insert_encoded {σ : Type} (m : CassandraStore σ) (rt : Runtime) (session : Session)
    (w : World σ) (encoded : String) (h : session.Values.timestampsValid = true)
    (henc : m.Codecs.EncodeValues session.name session.Values.strip = .ok encoded) :
    (insert m rt session w).2.1.trace =
      w.trace ++ [Event.encodeValues session.name session.Values.strip,
       Event.query (Stmt.stmtInsert (rt.RandomUUID w.drawn) encoded
         (createdOnOf rt session.Values w.ticks) (createdOnOf rt session.Values w.ticks)
         (insertExpiresOnOf rt session.Values session.Options.MaxAge w.ticks))] ∧
    (insert m rt session w).2.1.db =
      (m.db.Exec w.db (Stmt.stmtInsert (rt.RandomUUID w.drawn) encoded
         (createdOnOf rt session.Values w.ticks) (createdOnOf rt session.Values w.ticks)
         (insertExpiresOnOf rt session.Values session.Options.MaxAge w.ticks))).1 ∧
    (insert m rt session w).2.2 =
      (match (m.db.Exec w.db (Stmt.stmtInsert (rt.RandomUUID w.drawn) encoded
         (createdOnOf rt session.Values w.ticks) (createdOnOf rt session.Values w.ticks)
         (insertExpiresOnOf rt session.Values session.Options.MaxAge w.ticks))).2 with
       | none => Ret.nil
       | some e => Ret.err (Error.storage e)) ∧
    (insert m rt session w).1 =
      (match (m.db.Exec w.db (Stmt.stmtInsert (rt.RandomUUID w.drawn) encoded
         (createdOnOf rt session.Values w.ticks) (createdOnOf rt session.Values w.ticks)
         (insertExpiresOnOf rt session.Values session.Options.MaxAge w.ticks))).2 with
       | none => { session with Values := session.Values.strip,
                                ID := (rt.RandomUUID w.drawn).String }
       | some _ => { session with Values := session.Values.strip }) := by
  rcases hcr : session.Values.get (Key.str "created_on") with _ | c | c | c <;>
  rcases hex : session.Values.get (Key.str "expires_on") with _ | e | e | e <;>
  simp [Values.timestampsValid, Value.isTimeOrNil, hcr, hex] at h <;>
  simp [insert, hcr, hex, Value.asTime, Now, henc, World.emit, Time.Add,
    RandomUUID, Exec, createdOnOf, insertExpiresOnOf, createdTicks] <;>
  split <;> simp_all

/-- A session marked new is delegated to `insert`. -/
theorem save_new {σ : Type} (m : CassandraStore σ) (rt : Runtime) (session : Session)
    (w : World σ) (hnew : session.IsNew = true) :
    save m rt session w = insert m rt session w := by
  simp [save, hnew]

/-- The update path stops at a failed type assertion before anything is recorded. -/
theorem save_panic {σ : Type} (m : CassandraStore σ) (rt : Runtime) (session : Session)
    (w : World σ) (hnew : session.IsNew = false)
    (h : session.Values.timestampsValid = false) :
    (save m rt session w).2.2 = Ret.panic ∧ (save m rt session w).1 = session ∧
    (save m rt session w).2.1.trace = w.trace ∧ (save m rt session w).2.1.db = w.db := by
  rcases hcr : session.Values.get (Key.str "created_on") with _ | c | c | c <;>
  rcases hex : session.Values.get (Key.str "expires_on") with _ | e | e | e <;>
  simp [Values.timestampsValid, Value.isTimeOrNil, hcr, hex] at h <;>
  simp [save, hnew, hcr, hex, Value.asTime, Now]

/-- The update path returns the encoding error; the map is stripped, nothing is sent. -/
theorem save_encode_error {σ : Type} (m : CassandraStore σ) (rt : Runtime) (session : Session)
    (w : World σ) (x : String) (hnew : session.IsNew = false)
    (h : session.Values.timestampsValid = true)
    (henc : m.Codecs.EncodeValues session.name session.Values.strip = .error x) :
    (save m rt session w).2.2 = Ret.err (Error.codec x) ∧
    (save m rt session w).1 = { session with Values := session.Values.strip } ∧
    (save m rt session w).2.1.trace =
      w.trace ++ (saveLog session.Values ++
        [Event.encodeValues session.name session.Values.strip]) ∧
    (save m rt session w).2.1.db = w.db := by
  by_cases hlt : ∀ e, session.Values.get (Key.str "expires_on") = Value.time e →
      e < rt.Now (w.ticks + createdTicks session.Values) + maxAgeDuration session.Options.MaxAge <;>
  rcases hcr : session.Values.get (Key.str "created_on") with _ | c | c | c <;>
  rcases hex : session.Values.get (Key.str "expires_on") with _ | e | e | e <;>
  simp [Values.timestampsValid, Value.isTimeOrNil, hcr, hex] at h <;>
  simp [hex, createdTicks, hcr, -not_lt] at hlt <;>
  simp [save, hnew, hcr, hex, Value.asTime, Now, henc, World.emit, Time.Add,
    Sub_neg_iff, hlt, saveLog]

/-- The update path once the map is encoded: one update keyed by the identifier. -/
theorem save_encoded {σ : Type} (m : CassandraStore σ) (rt : Runtime) (session : Session)
    (w : World σ) (encoded : String) (hnew : session.IsNew = false)
    (h : session.Values.timestampsValid = true)
    (henc : m.Codecs.EncodeValues session.name session.Values.strip = .ok encoded) :
    (save m rt session w).2.1.trace =
      w.trace ++ (saveLog session.Values ++
        [Event.encodeValues session.name session.Values.strip,
         Event.query (Stmt.stmtUpdate encoded (createdOnOf rt session.Values w.ticks)
           (saveExpiresOnOf rt session.Values session.Options.MaxAge w.ticks)
           (createdOnOf rt session.Values w.ticks) session.ID)]) ∧
    (save m rt session w).2.1.db =
      (m.db.Exec w.db (Stmt.stmtUpdate encoded (createdOnOf rt session.Values w.ticks)
         (saveExpiresOnOf rt session.Values session.Options.MaxAge w.ticks)
         (createdOnOf rt session.Values w.ticks) session.ID)).1 ∧
    (save m rt session w).2.2 =
      (match (m.db.Exec w.db (Stmt.stmtUpdate encoded (createdOnOf rt session.Values w.ticks)
         (saveExpiresOnOf rt session.Values session.Options.MaxAge w.ticks)
         (createdOnOf rt session.Values w.ticks) session.ID)).2 with
       | none => Ret.nil
       | some e => Ret.err (Error.storage e)) ∧
    (save m rt session w).1 = { session with Values := session.Values.strip } := by
  by_cases hlt : ∀ e, session.Values.get (Key.str "expires_on") = Value.time e →
      e < rt.Now (w.ticks + createdTicks session.Values) + maxAgeDuration session.Options.MaxAge <;>
  rcases hcr : session.Values.get (Key.str "created_on") with _ | c | c | c <;>
  rcases hex : session.Values.get (Key.str "expires_on") with _ | e | e | e <;>
  simp [Values.timestampsValid, Value.isTimeOrNil, hcr, hex] at h <;>
  simp [hex, createdTicks, hcr, -not_lt] at hlt <;>
  simp [save, hnew, hcr, hex, Value.asTime, Now, henc, World.emit, Time.Add,
    Sub_neg_iff, hlt, Exec, createdOnOf, saveExpiresOnOf, createdTicks, saveLog] <;>
  split <;> simp_all

/-- The tail of `Save`, after `insert` or `save` returned. -/
theorem Save_of_inner {σ : Type} (m : CassandraStore σ) (rt : Runtime) (rw : ResponseWriter)
    (session : Session) (w : World σ) (s1 : Session) (w1 : World σ) (ret : Ret)
    (h : (if session.ID = "" then insert m rt session w else save m rt session w) =
      (s1, w1, ret)) :
    (Save m rt rw session w).2.1 = s1 ∧
    (Save m rt rw session w).2.2.1.db = w1.db ∧
    (ret ≠ Ret.nil → (Save m rt rw session w).2.2.2 = ret ∧ (Save m rt rw session w).1 = rw ∧
      (Save m rt rw session w).2.2.1.trace = w1.trace) ∧
    (ret = Ret.nil →
      (Save m rt rw session w).2.2.1.trace = w1.trace ++ [Event.encodeID s1.name s1.ID] ∧
      (∀ x, m.Codecs.EncodeID s1.name s1.ID = .error x →
        (Save m rt rw session w).2.2.2 = Ret.err (Error.codec x) ∧
        (Save m rt rw session w).1 = rw) ∧
      (∀ tok, m.Codecs.EncodeID s1.name s1.ID = .ok tok →
        (Save m rt rw session w).2.2.2 = Ret.nil ∧
        (Save m rt rw session w).1 = SetCookie rw (NewCookie s1.name tok s1.Options))) := by
  cases ret with
  | nil =>
    cases henc : m.Codecs.EncodeID s1.name s1.ID with
    | error x => simp [Save, h, henc, World.emit]
    | ok tok => simp [Save, h, henc, World.emit]
  | err e => simp [Save, h]
  | panic => simp [Save, h]

theorem inner_insert {σ : Type} (m : CassandraStore σ) (rt : Runtime) (session : Session)
    (w : World σ) (h : session.ID = "" ∨ session.IsNew = true) :
    (if session.ID = "" then insert m rt session w else save m rt session w) =
      insert m rt session w := by
  by_cases hid : session.ID = ""
  · simp [hid]
  · rcases h with h | h
    · exact absurd h hid
    · simp [hid, save_new m rt session w h]

theorem inner_save {σ : Type} (m : CassandraStore σ) (rt : Runtime) (session : Session)
    (w : World σ) (hid : session.ID ≠ "") :
    (if session.ID = "" then insert m rt session w else save m rt session w) =
      save m rt session w := by
  simp [hid]


/-- The two paths of `Save`. -/
theorem path_cases (s : Session) :
    (s.onUpdatePath = true ∧ s.ID ≠ "" ∧ s.IsNew = false) ∨
    (s.onUpdatePath = false ∧ (s.ID = "" ∨ s.IsNew = true)) := by
  by_cases hid : s.ID = "" <;> cases hnew : s.IsNew <;> simp [Session.onUpdatePath, hid, hnew]

/-- Save on a value map whose reserved keys fail the type assertion. -/
theorem Save_panic {σ : Type} (m : CassandraStore σ) (rt : Runtime) (rw : ResponseWriter)
    (session : Session) (w : World σ) (h : session.Values.timestampsValid = false) :
    Save m rt rw session w = (rw, session, (Save m rt rw session w).2.2.1, Ret.panic) ∧
    (Save m rt rw session w).2.2.1.trace = w.trace ∧
    (Save m rt rw session w).2.2.1.db = w.db := by
  have key : ∀ s1 w1 ret,
      (if session.ID = "" then insert m rt session w else save m rt session w) = (s1, w1, ret) →
      ret = Ret.panic ∧ s1 = session ∧ w1.trace = w.trace ∧ w1.db = w.db := by
    intro s1 w1 ret hin
    rcases path_cases session with ⟨-, hid, hnew⟩ | ⟨-, hp⟩
    · rw [inner_save m rt session w hid] at hin
      have := save_panic m rt session w hnew h
      rw [hin] at this
      exact this
    · rw [inner_insert m rt session w hp] at hin
      have := insert_panic m rt session w h
      rw [hin] at this
      exact this
  rcases hin : (if session.ID = "" then insert m rt session w else save m rt session w)
    with ⟨s1, w1, ret⟩
  obtain ⟨hret, hs, htr, hdb⟩ := key s1 w1 ret hin
  subst hret hs
  simp [Save, hin, htr, hdb]

/-- Save when the value map fails to encode. -/
theorem Save_encode_error {σ : Type} (m : CassandraStore σ) (rt : Runtime) (rw : ResponseWriter)
    (session : Session) (w : World σ) (x : String)
    (h : session.Values.timestampsValid = true)
    (henc : m.Codecs.EncodeValues session.name session.Values.strip = .error x) :
    (Save m rt rw session w).1 = rw ∧
    (Save m rt rw session w).2.1 = { session with Values := session.Values.strip } ∧
    (Save m rt rw session w).2.2.2 = Ret.err (Error.codec x) ∧
    (Save m rt rw session w).2.2.1.trace = w.trace ++ encodingOf session ∧
    (Save m rt rw session w).2.2.1.db = w.db := by
  have key : ∀ s1 w1 ret,
      (if session.ID = "" then insert m rt session w else save m rt session w) = (s1, w1, ret) →
      ret = Ret.err (Error.codec x) ∧ s1 = { session with Values := session.Values.strip } ∧
      w1.trace = w.trace ++ encodingOf session ∧ w1.db = w.db := by
    intro s1 w1 ret hin
    rcases path_cases session with ⟨hp, hid, hnew⟩ | ⟨hp1, hp⟩
    · rw [inner_save m rt session w hid] at hin
      have := save_encode_error m rt session w x hnew h henc
      rw [hin] at this
      simpa [encodingOf, hp] using this
    · rw [inner_insert m rt session w hp] at hin
      have := insert_encode_error m rt session w x h henc
      rw [hin] at this
      simpa [encodingOf, hp1] using this
  rcases hin : (if session.ID = "" then insert m rt session w else save m rt session w)
    with ⟨s1, w1, ret⟩
  obtain ⟨hret, hs, htr, hdb⟩ := key s1 w1 ret hin
  subst hret
  simp [Save, hin, htr, hdb, hs]

theorem Save_inner_encoded {σ : Type} (m : CassandraStore σ) (rt : Runtime)
    (session : Session) (w : World σ) (encoded : String)
    (h : session.Values.timestampsValid = true)
    (henc : m.Codecs.EncodeValues session.name session.Values.strip = .ok encoded)
    (s1 : Session) (w1 : World σ) (ret : Ret)
    (hin : (if session.ID = "" then insert m rt session w else save m rt session w) =
      (s1, w1, ret)) :
    w1.trace = w.trace ++ (encodingOf session ++ [Event.query (writeOf rt session w encoded)]) ∧
    w1.db = (m.db.Exec w.db (writeOf rt session w encoded)).1 ∧
    (∀ e, (m.db.Exec w.db (writeOf rt session w encoded)).2 = some e →
      ret = Ret.err (Error.storage e) ∧ s1 = { session with Values := session.Values.strip }) ∧
    ((m.db.Exec w.db (writeOf rt session w encoded)).2 = none →
      ret = Ret.nil ∧ s1 = savedOf rt session w.drawn) := by
  rcases path_cases session with ⟨hp, hid, hnew⟩ | ⟨hp1, hp⟩
  · rw [inner_save m rt session w hid] at hin
    have := save_encoded m rt session w encoded hnew h henc
    rw [hin] at this
    obtain ⟨h1, h2, h3, h4⟩ := this
    simp only [writeOf, hp, encodingOf, savedOf, if_true]
    refine ⟨by simpa using h1, h2, ?_, ?_⟩
    · intro e he
      rw [he] at h3
      exact ⟨h3, h4⟩
    · intro he
      rw [he] at h3
      exact ⟨h3, h4⟩
  · rw [inner_insert m rt session w hp] at hin
    have := insert_encoded m rt session w encoded h henc
    rw [hin] at this
    obtain ⟨h1, h2, h3, h4⟩ := this
    simp only [writeOf, hp1, encodingOf, savedOf, if_false, Bool.false_eq_true]
    refine ⟨by simpa using h1, h2, ?_, ?_⟩
    · intro e he
      rw [he] at h3 h4
      exact ⟨h3, h4⟩
    · intro he
      rw [he] at h3 h4
      exact ⟨h3, h4⟩

/-- Save when the write statement fails. -/
theorem Save_exec_error {σ : Type} (m : CassandraStore σ) (rt : Runtime) (rw : ResponseWriter)
    (session : Session) (w : World σ) (encoded e : String)
    (h : session.Values.timestampsValid = true)
    (henc : m.Codecs.EncodeValues session.name session.Values.strip = .ok encoded)
    (hexec : (m.db.Exec w.db (writeOf rt session w encoded)).2 = some e) :
    (Save m rt rw session w).1 = rw ∧
    (Save m rt rw session w).2.1 = { session with Values := session.Values.strip } ∧
    (Save m rt rw session w).2.2.2 = Ret.err (Error.storage e) ∧
    (Save m rt rw session w).2.2.1.trace =
      w.trace ++ (encodingOf session ++ [Event.query (writeOf rt session w encoded)]) ∧
    (Save m rt rw session w).2.2.1.db = (m.db.Exec w.db (writeOf rt session w encoded)).1 := by
  rcases hin : (if session.ID = "" then insert m rt session w else save m rt session w)
    with ⟨s1, w1, ret⟩
  obtain ⟨htr, hdb, herr, -⟩ := Save_inner_encoded m rt session w encoded h henc s1 w1 ret hin
  obtain ⟨hret, hs⟩ := herr e hexec
  subst hret
  simp [Save, hin, htr, hdb, hs]

/-- Save when the write statement succeeds. -/
theorem Save_exec_ok {σ : Type} (m : CassandraStore σ) (rt : Runtime) (rw : ResponseWriter)
    (session : Session) (w : World σ) (encoded : String)
    (h : session.Values.timestampsValid = true)
    (henc : m.Codecs.EncodeValues session.name session.Values.strip = .ok encoded)
    (hexec : (m.db.Exec w.db (writeOf rt session w encoded)).2 = none) :
    (Save m rt rw session w).2.1 = savedOf rt session w.drawn ∧
    (Save m rt rw session w).2.2.1.trace =
      w.trace ++ (encodingOf session ++ [Event.query (writeOf rt session w encoded),
        Event.encodeID session.name (savedOf rt session w.drawn).ID]) ∧
    (Save m rt rw session w).2.2.1.db = (m.db.Exec w.db (writeOf rt session w encoded)).1 ∧
    (∀ x, m.Codecs.EncodeID session.name (savedOf rt session w.drawn).ID = .error x →
      (Save m rt rw session w).2.2.2 = Ret.err (Error.codec x) ∧
      (Save m rt rw session w).1 = rw) ∧
    (∀ tok, m.Codecs.EncodeID session.name (savedOf rt session w.drawn).ID = .ok tok →
      (Save m rt rw session w).2.2.2 = Ret.nil ∧
      (Save m rt rw session w).1 =
        SetCookie rw (NewCookie session.name tok session.Options)) := by
  rcases hin : (if session.ID = "" then insert m rt session w else save m rt session w)
    with ⟨s1, w1, ret⟩
  obtain ⟨htr, hdb, -, hok⟩ := Save_inner_encoded m rt session w encoded h henc s1 w1 ret hin
  obtain ⟨hret, hs⟩ := hok hexec
  subst hret
  have hname : s1.name = session.name := by
    rw [hs]; unfold savedOf; split <;> rfl
  have hopts : s1.Options = session.Options := by
    rw [hs]; unfold savedOf; split <;> rfl
  obtain ⟨g1, g2, -, g4⟩ := Save_of_inner m rt rw session w s1 w1 Ret.nil hin
  obtain ⟨g5, g6, g7⟩ := g4 rfl
  rw [hname] at g5 g6 g7
  rw [hopts] at g7
  rw [hs] at g1 g5 g6 g7
  refine ⟨g1, ?_, g2.trans hdb, g6, g7⟩
  rw [g5, htr]
  simp

/-! ## Identifiers and the trace of Save -/

/-- The canonical form has thirty-six characters. -/
theorem UUID_String_length (u : UUID) : u.String.length = 36 := by
  simp [UUID.String, UUID.hex, String.length]

theorem UUID_String_ne_empty (u : UUID) : u.String ≠ "" := by
  intro h
  have := UUID_String_length u
  rw [h] at this
  simp at this

theorem mem_encodingOf (s : Session) (name : String) (values : Values)
    (h : Event.encodeValues name values ∈ encodingOf s) :
    name = s.name ∧ values = s.Values.strip := by
  unfold encodingOf saveLog at h
  split at h <;> (try split at h) <;> simp at h <;> exact h

theorem encodeValues_mem_encodingOf (s : Session) :
    Event.encodeValues s.name s.Values.strip ∈ encodingOf s := by
  simp [encodingOf]

theorem filter_encodingOf (s : Session) : (encodingOf s).filter Event.isWrite = [] := by
  unfold encodingOf saveLog
  split <;> (try split) <;> simp [Event.isWrite]

theorem query_not_mem_encodingOf (s : Session) (q : Stmt) : Event.query q ∉ encodingOf s := by
  unfold encodingOf saveLog
  split <;> (try split) <;> simp

theorem writeOf_isWrite {σ : Type} (rt : Runtime) (s : Session) (w : World σ) (encoded : String) :
    (Event.query (writeOf rt s w encoded)).isWrite = true := by
  unfold writeOf
  split <;> rfl

/-- The trace of `Save`, whatever path it takes: nothing, the encoding alone, or
the encoding followed by one write and, after a successful write, the encoding
of the identifier. -/
theorem Save_trace {σ : Type} (m : CassandraStore σ) (rt : Runtime) (rw : ResponseWriter)
    (session : Session) (w : World σ) :
    (session.Values.timestampsValid = false ∧ w.issued (Save m rt rw session w).2.2.1 = []) ∨
    (session.Values.timestampsValid = true ∧
      ∃ x, m.Codecs.EncodeValues session.name session.Values.strip = .error x ∧
        w.issued (Save m rt rw session w).2.2.1 = encodingOf session) ∨
    (session.Values.timestampsValid = true ∧
      ∃ encoded, m.Codecs.EncodeValues session.name session.Values.strip = .ok encoded ∧
        ((∃ e, (m.db.Exec w.db (writeOf rt session w encoded)).2 = some e ∧
            (Save m rt rw session w).2.2.2 = Ret.err (Error.storage e) ∧
            (Save m rt rw session w).1 = rw ∧
            w.issued (Save m rt rw session w).2.2.1 =
              encodingOf session ++ [Event.query (writeOf rt session w encoded)]) ∨
         ((m.db.Exec w.db (writeOf rt session w encoded)).2 = none ∧
            (∀ e, (Save m rt rw session w).2.2.2 ≠ Ret.err (Error.storage e)) ∧
            w.issued (Save m rt rw session w).2.2.1 =
              encodingOf session ++ [Event.query (writeOf rt session w encoded),
                Event.encodeID session.name (savedOf rt session w.drawn).ID]))) := by
  cases hv : session.Values.timestampsValid with
  | false =>
    left
    obtain ⟨-, htr, -⟩ := Save_panic m rt rw session w hv
    exact ⟨rfl, issued_append w _ [] (by simpa using htr)⟩
  | true =>
    right
    cases henc : m.Codecs.EncodeValues session.name session.Values.strip with
    | error x =>
      left
      obtain ⟨-, -, -, htr, -⟩ := Save_encode_error m rt rw session w x hv henc
      exact ⟨rfl, x, rfl, issued_append w _ _ htr⟩
    | ok encoded =>
      right
      refine ⟨rfl, encoded, rfl, ?_⟩
      cases hexec : (m.db.Exec w.db (writeOf rt session w encoded)).2 with
      | some e =>
        left
        obtain ⟨h1, -, h3, htr, -⟩ := Save_exec_error m rt rw session w encoded e hv henc hexec
        exact ⟨e, rfl, h3, h1, issued_append w _ _ htr⟩
      | none =>
        right
        obtain ⟨-, htr, -, h4, h5⟩ := Save_exec_ok m rt rw session w encoded hv henc hexec
        refine ⟨rfl, ?_, issued_append w _ _ htr⟩
        intro e
        cases hid : m.Codecs.EncodeID session.name (savedOf rt session w.drawn).ID with
        | error x => rw [(h4 x hid).1]; simp
        | ok tok => rw [(h5 tok hid).1]; simp

/-! ## What Save encodes and writes -/

/-- C6: on the insert path and on the update path alike, every map Save hands to
the codec for encoding is the session's value map with `created_on`,
`modified_on` and `expires_on` removed (it holds none of the three keys, every
other key keeps its value: the entries kept are exactly those under another
key), the map is handed over whenever the two reserved keys Save reads are absent
or timestamps, and the payload of every row Save writes is the codec's encoding
of exactly that map. -/
theorem Save_encodes_values_without_reserved_keys {σ : Type} (m : CassandraStore σ)
    (rt : Runtime) (rw : ResponseWriter) (session : Session) (w : World σ) :
    (∀ name values,
      Event.encodeValues name values ∈ w.issued (Save m rt rw session w).2.2.1 →
      name = session.name ∧ values = session.Values.strip) ∧
    (session.Values.timestampsValid = true →
      Event.encodeValues session.name session.Values.strip ∈
        w.issued (Save m rt rw session w).2.2.1) ∧
    (∀ s row, Event.query s ∈ w.issued (Save m rt rw session w).2.2.1 → s.row = some row →
      m.Codecs.EncodeValues session.name session.Values.strip = .ok row.data) ∧
    (∀ k, Values.lookup session.Values.strip k =
      if k = Key.str "created_on" ∨ k = Key.str "modified_on" ∨ k = Key.str "expires_on"
      then none else Values.lookup session.Values k) ∧
    session.Values.strip = session.Values.filter (fun q =>
      decide (q.1 ≠ Key.str "created_on" ∧ q.1 ≠ Key.str "modified_on" ∧
        q.1 ≠ Key.str "expires_on")) := by
  have hrow : ∀ encoded row, (writeOf rt session w encoded).row = some row →
      row.data = encoded := by
    intro encoded row h
    unfold writeOf at h
    split at h <;> simp [Stmt.row] at h <;> rw [← h]
  refine ⟨?_, ?_, ?_, lookup_strip session.Values, strip_eq_filter session.Values⟩
  · intro name values hmem
    rcases Save_trace m rt rw session w with ⟨-, h⟩ | ⟨-, x, -, h⟩ | ⟨-, enc, -, h⟩
    · rw [h] at hmem; simp at hmem
    · rw [h] at hmem; exact mem_encodingOf session name values hmem
    · rcases h with ⟨e, -, -, -, h⟩ | ⟨-, -, h⟩
      · rw [h] at hmem
        simp only [List.mem_append, List.mem_singleton, reduceCtorEq, or_false] at hmem
        exact mem_encodingOf session name values hmem
      · rw [h] at hmem
        simp only [List.mem_append, List.mem_cons, reduceCtorEq, List.mem_singleton,
          List.not_mem_nil, or_false] at hmem
        exact mem_encodingOf session name values hmem
  · intro hv
    rcases Save_trace m rt rw session w with ⟨hv1, -⟩ | ⟨-, x, -, h⟩ | ⟨-, enc, -, h⟩
    · rw [hv] at hv1; cases hv1
    · rw [h]; exact encodeValues_mem_encodingOf session
    · rcases h with ⟨e, -, -, -, h⟩ | ⟨-, -, h⟩ <;> rw [h] <;>
        exact List.mem_append_left _ (encodeValues_mem_encodingOf session)
  · intro s row hmem hs
    rcases Save_trace m rt rw session w with ⟨-, h⟩ | ⟨-, x, -, h⟩ | ⟨-, enc, henc, h⟩
    · rw [h] at hmem; simp at hmem
    · rw [h] at hmem; exact absurd hmem (query_not_mem_encodingOf session s)
    · have hq : s = writeOf rt session w enc := by
        rcases h with ⟨e, -, -, -, h⟩ | ⟨-, -, h⟩ <;> rw [h] at hmem <;>
          simp only [List.mem_append, List.mem_cons, List.mem_singleton, Event.query.injEq,
            reduceCtorEq, List.not_mem_nil, or_false] at hmem <;>
          rcases hmem with hmem | hmem
        · exact absurd hmem (query_not_mem_encodingOf session s)
        · exact hmem
        · exact absurd hmem (query_not_mem_encodingOf session s)
        · exact hmem
      rw [hq] at hs
      rw [hrow enc row hs]
      exact henc

theorem writes_encoding_write {σ : Type} (rt : Runtime) (s : Session) (w w1 : World σ)
    (encoded : String) (rest : List Event) (hrest : rest.filter Event.isWrite = [])
    (h : w.issued w1 = encodingOf s ++ Event.query (writeOf rt s w encoded) :: rest) :
    w.writes w1 = [Event.query (writeOf rt s w encoded)] := by
  simp [World.writes, h, filter_encodingOf, List.filter_cons, writeOf_isWrite, hrest]

/-- Save sends exactly one write once the value map is encoded. -/
theorem Save_writes {σ : Type} (m : CassandraStore σ) (rt : Runtime) (rw : ResponseWriter)
    (session : Session) (w : World σ) (encoded : String)
    (hvalid : session.Values.timestampsValid = true)
    (henc : m.Codecs.EncodeValues session.name session.Values.strip = .ok encoded) :
    w.writes (Save m rt rw session w).2.2.1 = [Event.query (writeOf rt session w encoded)] := by
  rcases Save_trace m rt rw session w with ⟨hv, -⟩ | ⟨-, x, hx, -⟩ | ⟨-, enc, henc1, h⟩
  · rw [hvalid] at hv; cases hv
  · rw [henc] at hx; cases hx
  · rw [henc] at henc1
    cases henc1
    rcases h with ⟨e, -, -, -, h⟩ | ⟨-, -, h⟩
    · exact writes_encoding_write rt session w _ encoded [] rfl h
    · exact writes_encoding_write rt session w _ encoded
        [Event.encodeID session.name (savedOf rt session w.drawn).ID] rfl h

/-- Save sends no write when it panics or the value map fails to encode. -/
theorem Save_writes_nil {σ : Type} (m : CassandraStore σ) (rt : Runtime) (rw : ResponseWriter)
    (session : Session) (w : World σ)
    (h : session.Values.timestampsValid = false ∨
      ∃ x, m.Codecs.EncodeValues session.name session.Values.strip = .error x) :
    w.writes (Save m rt rw session w).2.2.1 = [] := by
  rcases Save_trace m rt rw session w with ⟨-, h1⟩ | ⟨-, x, -, h1⟩ | ⟨hv, enc, henc, -⟩
  · simp [World.writes, h1]
  · simp [World.writes, h1, filter_encodingOf]
  · rcases h with h | ⟨x, hx⟩
    · rw [hv] at h; cases h
    · rw [henc] at hx; cases hx

/-- C7 (as amended): Save issues at most one storage write, and none when a
reserved key it reads holds a non-timestamp or the value map fails to encode.
When those keys are absent or timestamps and the value map encodes, Save issues a
storage Update, keyed by the session's current identifier, if and only if the
identifier is non-empty and is-new = false; in every other case the one write is
a storage Insert keyed by the freshly generated UUID, never by the identifier
the session carried, so that nothing is written under the carried identifier
unless the generator returns that very identifier; and on success the session's
identifier is the non-empty canonical string of exactly that UUID, the key of
the inserted row and the value encoded into the cookie Save hands to
`http.SetCookie`, which is on the response when the session's name is a valid
cookie name. -/
theorem Save_updates_iff_identified_and_not_new {σ : Type} (m : CassandraStore σ)
    (rt : Runtime) (rw : ResponseWriter) (session : Session) (w : World σ) :
    (session.Values.timestampsValid = false ∨
      (∃ x, m.Codecs.EncodeValues session.name session.Values.strip = .error x) →
      w.writes (Save m rt rw session w).2.2.1 = []) ∧
    (∀ encoded, session.Values.timestampsValid = true →
      m.Codecs.EncodeValues session.name session.Values.strip = .ok encoded →
      ((∃ data c e mo id, Event.query (Stmt.stmtUpdate data c e mo id) ∈
          w.writes (Save m rt rw session w).2.2.1) ↔
        (session.ID ≠ "" ∧ session.IsNew = false)) ∧
      (session.ID ≠ "" ∧ session.IsNew = false →
        ∃ c e, w.writes (Save m rt rw session w).2.2.1 =
          [Event.query (Stmt.stmtUpdate encoded c e c session.ID)]) ∧
      (session.ID = "" ∨ session.IsNew = true →
        (∃ c e, w.writes (Save m rt rw session w).2.2.1 =
          [Event.query (Stmt.stmtInsert (rt.RandomUUID w.drawn) encoded c c e)]) ∧
        (∀ s, Event.query s ∈ w.writes (Save m rt rw session w).2.2.1 →
          s.key = (rt.RandomUUID w.drawn).String) ∧
        (session.ID ≠ (rt.RandomUUID w.drawn).String →
          ∀ s, Event.query s ∈ w.writes (Save m rt rw session w).2.2.1 →
            s.key ≠ session.ID) ∧
        ((Save m rt rw session w).2.2.2 = Ret.nil →
          (Save m rt rw session w).2.1.ID = (rt.RandomUUID w.drawn).String ∧
          (Save m rt rw session w).2.1.ID ≠ "" ∧
          ∃ tok, m.Codecs.EncodeID session.name (rt.RandomUUID w.drawn).String = .ok tok ∧
            (Save m rt rw session w).1 =
              SetCookie rw (NewCookie session.name tok session.Options) ∧
            (isCookieNameValid session.name = true →
              (Save m rt rw session w).1 =
                rw ++ [NewCookie session.name tok session.Options])))) := by
  refine ⟨Save_writes_nil m rt rw session w, ?_⟩
  intro encoded hvalid henc
  have hw := Save_writes m rt rw session w encoded hvalid henc
  rcases path_cases session with ⟨hp, hid, hnew⟩ | ⟨hp, hins⟩
  · have hstmt : writeOf rt session w encoded =
        Stmt.stmtUpdate encoded (createdOnOf rt session.Values w.ticks)
          (saveExpiresOnOf rt session.Values session.Options.MaxAge w.ticks)
          (createdOnOf rt session.Values w.ticks) session.ID := by
      simp [writeOf, hp]
    rw [hstmt] at hw
    refine ⟨⟨fun _ => ⟨hid, hnew⟩, fun _ => ⟨_, _, _, _, _, by rw [hw]; exact List.mem_singleton_self _⟩⟩,
      fun _ => ⟨_, _, hw⟩, ?_⟩
    intro h
    rcases h with h | h
    · exact absurd h hid
    · rw [hnew] at h; cases h
  · have hstmt : writeOf rt session w encoded =
        Stmt.stmtInsert (rt.RandomUUID w.drawn) encoded (createdOnOf rt session.Values w.ticks)
          (createdOnOf rt session.Values w.ticks)
          (insertExpiresOnOf rt session.Values session.Options.MaxAge w.ticks) := by
      simp [writeOf, hp]
    have hnot : ¬ (session.ID ≠ "" ∧ session.IsNew = false) := by
      rintro ⟨h1, h2⟩
      rcases hins with h | h
      · exact h1 h
      · rw [h2] at h; cases h
    have hsaved : (savedOf rt session w.drawn).ID = (rt.RandomUUID w.drawn).String := by
      simp [savedOf, hp]
    have hkey : ∀ s, Event.query s ∈ w.writes (Save m rt rw session w).2.2.1 →
        s.key = (rt.RandomUUID w.drawn).String := by
      intro s hmem
      rw [hw, hstmt] at hmem
      simp only [List.mem_singleton, Event.query.injEq] at hmem
      rw [hmem]
      rfl
    refine ⟨⟨?_, fun h => absurd h hnot⟩, fun h => absurd h hnot, fun _ => ⟨⟨_, _, by
      rw [hw, hstmt]⟩, hkey, ?_, ?_⟩⟩
    · rintro ⟨data, c, e, mo, id, hmem⟩
      rw [hw, hstmt] at hmem
      simp at hmem
    · intro hne s hmem hk
      rw [hkey s hmem] at hk
      exact hne hk.symm
    · intro hret
      cases hexec : (m.db.Exec w.db (writeOf rt session w encoded)).2 with
      | some e =>
        obtain ⟨-, -, h3, -⟩ := Save_exec_error m rt rw session w encoded e hvalid henc hexec
        rw [h3] at hret
        cases hret
      | none =>
        obtain ⟨h1, -, -, h4, h5⟩ := Save_exec_ok m rt rw session w encoded hvalid henc hexec
        rw [hsaved] at h4 h5
        have hidS : (Save m rt rw session w).2.1.ID = (rt.RandomUUID w.drawn).String := by
          rw [h1, hsaved]
        refine ⟨hidS, by rw [hidS]; exact UUID_String_ne_empty _, ?_⟩
        cases hid : m.Codecs.EncodeID session.name (rt.RandomUUID w.drawn).String with
        | error x =>
          rw [(h4 x hid).1] at hret
          cases hret
        | ok tok =>
          refine ⟨tok, rfl, (h5 tok hid).2, ?_⟩
          intro hname
          rw [(h5 tok hid).2]
          simp [SetCookie, NewCookie, hname]

/-- C7 counterexample: a loaded session (identifier "abc", is-new = false) saved
through a store whose codec chain is empty. The identifier is non-empty and the
session is not new, yet Save issues no storage Update: it stops at the encoding
error and writes nothing. -/
theorem Save_update_iff_counterexample :
    loadedAlice.ID ≠ "" ∧ loadedAlice.IsNew = false ∧
    (Save (uncodedStore 60) (tickingRuntime 1000) [] loadedAlice
        (World.init [⟨"abc", "blob", 500, 500, 2000⟩])).2.2.2 =
      Ret.err (Error.codec "securecookie: no codecs provided") ∧
    (World.init [⟨"abc", "blob", 500, 500, 2000⟩]).writes
      (Save (uncodedStore 60) (tickingRuntime 1000) [] loadedAlice
        (World.init [⟨"abc", "blob", 500, 500, 2000⟩])).2.2.1 = [] ∧
    ¬ ((∃ data c e mo, Event.query (Stmt.stmtUpdate data c e mo loadedAlice.ID) ∈
          (World.init [⟨"abc", "blob", 500, 500, 2000⟩]).issued
            (Save (uncodedStore 60) (tickingRuntime 1000) [] loadedAlice
              (World.init [⟨"abc", "blob", 500, 500, 2000⟩])).2.2.1) ↔
        (loadedAlice.ID ≠ "" ∧ loadedAlice.IsNew = false)) := by
  refine ⟨by decide, by decide, by decide, by decide, ?_⟩
  intro h
  obtain ⟨data, c, e, mo, hmem⟩ := h.mpr ⟨by decide, by decide⟩
  have htr : (World.init [⟨"abc", "blob", 500, 500, 2000⟩]).issued
      (Save (uncodedStore 60) (tickingRuntime 1000) [] loadedAlice
        (World.init [⟨"abc", "blob", 500, 500, 2000⟩])).2.2.1 =
      [Event.encodeValues "sid" aliceValues] := by decide
  rw [htr] at hmem
  simp at hmem

/-- C7 witness: a fresh session holding one entry, saved into an empty table. -/
theorem Save_updates_iff_identified_and_not_new_witness :
    (Save (memStore 60 aliceValues) (tickingRuntime 1000) [] freshAlice (World.init [])).2.1.ID =
      ((tickingRuntime 1000).RandomUUID (World.init ([] : List sessionRow)).drawn).String ∧
    (Save (memStore 60 aliceValues) (tickingRuntime 1000) [] freshAlice (World.init [])).2.1.ID ≠ "" ∧
    ∃ tok, (memStore 60 aliceValues).Codecs.EncodeID freshAlice.name
        ((tickingRuntime 1000).RandomUUID (World.init ([] : List sessionRow)).drawn).String =
          .ok tok ∧
      (Save (memStore 60 aliceValues) (tickingRuntime 1000) [] freshAlice (World.init [])).1 =
        SetCookie [] (NewCookie freshAlice.name tok freshAlice.Options) ∧
      (isCookieNameValid freshAlice.name = true →
        (Save (memStore 60 aliceValues) (tickingRuntime 1000) [] freshAlice (World.init [])).1 =
          [] ++ [NewCookie freshAlice.name tok freshAlice.Options]) :=
  ((((Save_updates_iff_identified_and_not_new (memStore 60 aliceValues) (tickingRuntime 1000) []
    freshAlice (World.init [])).2 "blob" (by decide) (by decide)).2.2 (Or.inl (by decide))).2.2.2
    (by decide))

/-- C8 (as amended): when the storage write Save issues fails, Save returns
exactly that storage error and has added no Set-Cookie header to the response;
conversely Save returns a storage error only so. When the storage delete that
Delete issues fails, Delete returns exactly that storage error, but it has
already handed the invalidating cookie (empty value, Max-Age = -1) to
`http.SetCookie`, which it does before it touches storage and whether or not the
delete then fails: when the session's name is a valid cookie name the response
already carries that Set-Cookie header. -/
theorem storage_error_returned_verbatim {σ : Type} (m : CassandraStore σ) (rt : Runtime)
    (rw : ResponseWriter) (session : Session) (w : World σ) (e : String) :
    (∀ s, Event.query s ∈ w.writes (Save m rt rw session w).2.2.1 →
      (m.db.Exec w.db s).2 = some e →
      (Save m rt rw session w).2.2.2 = Ret.err (Error.storage e) ∧
      (Save m rt rw session w).1 = rw) ∧
    ((Save m rt rw session w).2.2.2 = Ret.err (Error.storage e) →
      (Save m rt rw session w).1 = rw ∧
      ∃ s, w.writes (Save m rt rw session w).2.2.1 = [Event.query s] ∧
        (m.db.Exec w.db s).2 = some e) ∧
    ((m.db.Exec w.db (Stmt.stmtDelete session.ID)).2 = some e ↔
      (Delete m rw session w).2.2.2 = some (Error.storage e)) ∧
    w.writes (Delete m rw session w).2.2.1 = [Event.query (Stmt.stmtDelete session.ID)] ∧
    (Delete m rw session w).1 =
      SetCookie rw (NewCookie session.name "" { session.Options with MaxAge := -1 }) ∧
    (isCookieNameValid session.name = true →
      (Delete m rw session w).1 =
        rw ++ [NewCookie session.name "" { session.Options with MaxAge := -1 }]) := by
  refine ⟨?_, ?_, ?_, ?_, (Delete_effects m rw session w).1, (Delete_effects m rw session w).2.1⟩
  · intro s hmem hexec
    cases hv : session.Values.timestampsValid with
    | false =>
      rw [Save_writes_nil m rt rw session w (Or.inl hv)] at hmem
      simp at hmem
    | true =>
      cases henc : m.Codecs.EncodeValues session.name session.Values.strip with
      | error x =>
        rw [Save_writes_nil m rt rw session w (Or.inr ⟨x, henc⟩)] at hmem
        simp at hmem
      | ok encoded =>
        rw [Save_writes m rt rw session w encoded hv henc] at hmem
        simp only [List.mem_singleton, Event.query.injEq] at hmem
        subst hmem
        obtain ⟨h1, -, h3, -⟩ := Save_exec_error m rt rw session w encoded e hv henc hexec
        exact ⟨h3, h1⟩
  · intro hret
    cases hv : session.Values.timestampsValid with
    | false =>
      have := (Save_panic m rt rw session w hv).1
      rw [this] at hret
      cases hret
    | true =>
      cases henc : m.Codecs.EncodeValues session.name session.Values.strip with
      | error x =>
        obtain ⟨-, -, h3, -⟩ := Save_encode_error m rt rw session w x hv henc
        rw [h3] at hret
        cases hret
      | ok encoded =>
        cases hexec : (m.db.Exec w.db (writeOf rt session w encoded)).2 with
        | some e1 =>
          obtain ⟨h1, -, h3, -⟩ := Save_exec_error m rt rw session w encoded e1 hv henc hexec
          rw [h3] at hret
          cases hret
          exact ⟨h1, _, Save_writes m rt rw session w encoded hv henc, hexec⟩
        | none =>
          obtain ⟨-, -, -, h4, h5⟩ := Save_exec_ok m rt rw session w encoded hv henc hexec
          cases hid : m.Codecs.EncodeID session.name (savedOf rt session w.drawn).ID with
          | error x => rw [(h4 x hid).1] at hret; cases hret
          | ok tok => rw [(h5 tok hid).1] at hret; cases hret
  · cases hexec : (m.db.Exec w.db (Stmt.stmtDelete session.ID)).2 with
    | none => simp [Delete, Exec, hexec]
    | some e1 => simp [Delete, Exec, hexec]
  · cases hexec : (m.db.Exec w.db (Stmt.stmtDelete session.ID)).2 with
    | none => simp [Delete, Exec, hexec, World.emit, writes_mk, Event.isWrite]
    | some e1 => simp [Delete, Exec, hexec, World.emit, writes_mk, Event.isWrite]

/-- C8 witness: a fresh session saved while the database is unreachable. -/
theorem storage_error_returned_verbatim_witness :
    (Save (downStore 60 aliceValues) (tickingRuntime 1000) [] freshAlice (World.init [])).1 = [] ∧
    ∃ s, (World.init []).writes
        (Save (downStore 60 aliceValues) (tickingRuntime 1000) [] freshAlice
          (World.init [])).2.2.1 = [Event.query s] ∧
      ((downStore 60 aliceValues).db.Exec (World.init ([] : List sessionRow)).db s).2 =
        some "unavailable" :=
  (storage_error_returned_verbatim (downStore 60 aliceValues) (tickingRuntime 1000) []
    freshAlice (World.init []) "unavailable").2.1 (by decide)

/-- C8 counterexample: Delete of a loaded session while the database is
unreachable. The storage delete fails and Delete returns that error, yet the
response, empty before the call, now holds a Set-Cookie header. -/
theorem Delete_sets_cookie_before_storage_failure_counterexample :
    ((downStore 60 aliceValues).db.Exec (World.init ([] : List sessionRow)).db
        (Stmt.stmtDelete loadedAlice.ID)).2 = some "unavailable" ∧
    (Delete (downStore 60 aliceValues) [] loadedAlice (World.init [])).2.2.2 =
      some (Error.storage "unavailable") ∧
    (Delete (downStore 60 aliceValues) [] loadedAlice (World.init [])).1 =
      [{ Name := "sid", Value := "", Path := "/", Domain := "", MaxAge := -1,
         Secure := false, HttpOnly := false }] ∧
    (Delete (downStore 60 aliceValues) [] loadedAlice (World.init [])).1 ≠ [] := by
  decide

/-! ## Expiry on the update path -/

theorem saveExpiresOnOf_nil (rt : Runtime) (v : Values) (maxAge : Int) (t : Nat)
    (h : v.get (Key.str "expires_on") = Value.nil) :
    saveExpiresOnOf rt v maxAge t = rt.Now (t + createdTicks v) + maxAgeDuration maxAge := by
  simp [saveExpiresOnOf, h]

theorem saveExpiresOnOf_time (rt : Runtime) (v : Values) (maxAge : Int) (t : Nat) (x : Time)
    (h : v.get (Key.str "expires_on") = Value.time x) :
    saveExpiresOnOf rt v maxAge t =
      if x < rt.Now (t + createdTicks v) + maxAgeDuration maxAge then
        rt.Now (t + createdTicks v + 1) + maxAgeDuration maxAge
      else x := by
  simp [saveExpiresOnOf, h]

theorem expires_valid_cases (v : Values) (h : v.timestampsValid = true) :
    v.get (Key.str "expires_on") = Value.nil ∨ ∃ x, v.get (Key.str "expires_on") = Value.time x := by
  unfold Values.timestampsValid at h
  cases hex : v.get (Key.str "expires_on") <;> simp [hex, Value.isTimeOrNil] at h ⊢

theorem created_valid_cases (v : Values) (h : v.timestampsValid = true) :
    v.get (Key.str "created_on") = Value.nil ∨ ∃ c, v.get (Key.str "created_on") = Value.time c := by
  unfold Values.timestampsValid at h
  cases hcr : v.get (Key.str "created_on") <;> simp [hcr, Value.isTimeOrNil] at h ⊢

/-- The expiry written on the update path, when the update is reached. -/
theorem Save_update_expiry {σ : Type} (m : CassandraStore σ)
    (rt : Runtime) (rw : ResponseWriter) (session : Session) (w : World σ) (encoded : String)
    (hid : session.ID ≠ "") (hnew : session.IsNew = false)
    (hlo : minDuration ≤ Second * session.Options.MaxAge)
    (hhi : Second * session.Options.MaxAge ≤ maxDuration)
    (hvalid : session.Values.timestampsValid = true)
    (henc : m.Codecs.EncodeValues session.name session.Values.strip = .ok encoded) :
    ∃ createdOn expiresOn,
      w.writes (Save m rt rw session w).2.2.1 =
        [Event.query (Stmt.stmtUpdate encoded createdOn expiresOn createdOn session.ID)] ∧
      (∀ now : Time, (∀ i, w.ticks ≤ i → rt.Now i = now) →
        (∀ x, session.Values.get (Key.str "expires_on") = Value.time x →
          expiresOn = max x (now + Second * session.Options.MaxAge)) ∧
        (session.Values.get (Key.str "expires_on") = Value.nil →
          expiresOn = max (now + Second * session.Options.MaxAge)
            (now + Second * session.Options.MaxAge)) ∧
        now + Second * session.Options.MaxAge ≤ expiresOn ∧
        (∀ x, session.Values.get (Key.str "expires_on") = Value.time x →
          x ≤ now + Second * session.Options.MaxAge →
          expiresOn = now + Second * session.Options.MaxAge)) ∧
      ((∀ i j, i ≤ j → rt.Now i ≤ rt.Now j) →
        rt.Now w.ticks + Second * session.Options.MaxAge ≤ expiresOn ∧
        (∀ x, session.Values.get (Key.str "expires_on") = Value.time x →
          x ≤ rt.Now (w.ticks + createdTicks session.Values) + Second * session.Options.MaxAge →
          ∃ i, w.ticks ≤ i ∧ i ≤ w.ticks + 2 ∧
            expiresOn = rt.Now i + Second * session.Options.MaxAge)) := by
  have hp : session.onUpdatePath = true := by simp [Session.onUpdatePath, hid, hnew]
  have hw := Save_writes m rt rw session w encoded hvalid henc
  have hstmt : writeOf rt session w encoded =
      Stmt.stmtUpdate encoded (createdOnOf rt session.Values w.ticks)
        (saveExpiresOnOf rt session.Values session.Options.MaxAge w.ticks)
        (createdOnOf rt session.Values w.ticks) session.ID := by
    simp [writeOf, hp]
  rw [hstmt] at hw
  have hd := maxAgeDuration_eq session.Options.MaxAge hlo hhi
  have hk : createdTicks session.Values ≤ 1 := by
    unfold createdTicks; split <;> simp
  refine ⟨_, _, hw, ?_, ?_⟩
  · intro now hnow
    have h0 : rt.Now (w.ticks + createdTicks session.Values) = now := hnow _ (by omega)
    have h1 : rt.Now (w.ticks + createdTicks session.Values + 1) = now := hnow _ (by omega)
    rcases expires_valid_cases session.Values hvalid with hex | ⟨x, hex⟩
    · rw [saveExpiresOnOf_nil rt _ _ _ hex, hd, h0]
      refine ⟨?_, fun _ => (max_self _).symm, le_refl _, fun _ _ _ => rfl⟩
      intro x hx
      rw [hex] at hx
      cases hx
    · rw [saveExpiresOnOf_time rt _ _ _ x hex, hd, h0, h1]
      refine ⟨?_, ?_, ?_, ?_⟩
      · intro y hy
        rw [hex] at hy
        cases hy
        split_ifs with hlt
        · exact (max_eq_right (le_of_lt hlt)).symm
        · exact (max_eq_left (not_lt.mp hlt)).symm
      · intro h
        rw [hex] at h
        cases h
      · split_ifs with hlt
        · exact le_refl _
        · exact not_lt.mp hlt
      · intro y hy hle
        rw [hex] at hy
        cases hy
        split_ifs with hlt
        · rfl
        · exact le_antisymm hle (not_lt.mp hlt)
  · intro hmono
    have m0 : rt.Now w.ticks ≤ rt.Now (w.ticks + createdTicks session.Values) :=
      hmono _ _ (by omega)
    have m1 : rt.Now w.ticks ≤ rt.Now (w.ticks + createdTicks session.Values + 1) :=
      hmono _ _ (by omega)
    rcases expires_valid_cases session.Values hvalid with hex | ⟨x, hex⟩
    · rw [saveExpiresOnOf_nil rt _ _ _ hex, hd]
      refine ⟨add_le_add_right m0 _, ?_⟩
      intro x hx
      rw [hex] at hx
      cases hx
    · rw [saveExpiresOnOf_time rt _ _ _ x hex, hd]
      refine ⟨?_, ?_⟩
      · split_ifs with hlt
        · exact add_le_add_right m1 _
        · exact le_trans (add_le_add_right m0 _) (not_lt.mp hlt)
      · intro y hy hle
        rw [hex] at hy
        cases hy
        split_ifs with hlt
        · exact ⟨w.ticks + createdTicks session.Values + 1, by omega, by omega, rfl⟩
        · exact ⟨w.ticks + createdTicks session.Values, by omega, by omega,
            le_antisymm hle (not_lt.mp hlt)⟩

/-- C4: on the update path (identifier non-empty, is-new = false), for every
value map and every max_age whose nanosecond count fits the duration type, the
expires_on of every Update that Save writes is max(candidate, now + max_age), the
candidate being the value map's `expires_on` if present and now + max_age
otherwise, `now` being what the clock reads during the call; so it is at least
now + max_age, and exactly now + max_age when the loaded expires_on ≤
now + max_age. When the successive readings differ but never decrease, the
written value is still never below the call's first reading plus max_age, and a
loaded expires_on that does not exceed the reading it is compared with plus
max_age is replaced by one of the call's readings plus max_age. Such an Update,
keyed by the session's identifier, is indeed written, and it is the only write,
whenever the reserved keys are absent or timestamps and the value map encodes. -/
theorem Save_update_writes_max_of_candidate_and_extension {σ : Type} (m : CassandraStore σ)
    (rt : Runtime) (rw : ResponseWriter) (session : Session) (w : World σ)
    (hid : session.ID ≠ "") (hnew : session.IsNew = false)
    (hlo : minDuration ≤ Second * session.Options.MaxAge)
    (hhi : Second * session.Options.MaxAge ≤ maxDuration) :
    (∀ encoded, session.Values.timestampsValid = true →
      m.Codecs.EncodeValues session.name session.Values.strip = .ok encoded →
      ∃ createdOn expiresOn, w.writes (Save m rt rw session w).2.2.1 =
        [Event.query (Stmt.stmtUpdate encoded createdOn expiresOn createdOn session.ID)]) ∧
    (∀ data createdOn expiresOn modifiedOn id,
      Event.query (Stmt.stmtUpdate data createdOn expiresOn modifiedOn id) ∈
        w.writes (Save m rt rw session w).2.2.1 →
      (∀ now : Time, (∀ i, w.ticks ≤ i → rt.Now i = now) →
        (∀ x, session.Values.get (Key.str "expires_on") = Value.time x →
          expiresOn = max x (now + Second * session.Options.MaxAge)) ∧
        (session.Values.get (Key.str "expires_on") = Value.nil →
          expiresOn = max (now + Second * session.Options.MaxAge)
            (now + Second * session.Options.MaxAge)) ∧
        now + Second * session.Options.MaxAge ≤ expiresOn ∧
        (∀ x, session.Values.get (Key.str "expires_on") = Value.time x →
          x ≤ now + Second * session.Options.MaxAge →
          expiresOn = now + Second * session.Options.MaxAge)) ∧
      ((∀ i j, i ≤ j → rt.Now i ≤ rt.Now j) →
        rt.Now w.ticks + Second * session.Options.MaxAge ≤ expiresOn ∧
        (∀ x, session.Values.get (Key.str "expires_on") = Value.time x →
          x ≤ rt.Now (w.ticks + createdTicks session.Values) + Second * session.Options.MaxAge →
          ∃ i, w.ticks ≤ i ∧ i ≤ w.ticks + 2 ∧
            expiresOn = rt.Now i + Second * session.Options.MaxAge))) := by
  refine ⟨?_, ?_⟩
  · intro encoded hvalid henc
    obtain ⟨c, e, hw, -⟩ := Save_update_expiry m rt rw session w encoded hid hnew hlo hhi hvalid henc
    exact ⟨c, e, hw⟩
  · intro data createdOn expiresOn modifiedOn id hmem
    cases hv : session.Values.timestampsValid with
    | false =>
      rw [Save_writes_nil m rt rw session w (Or.inl hv)] at hmem
      simp at hmem
    | true =>
      cases henc : m.Codecs.EncodeValues session.name session.Values.strip with
      | error x =>
        rw [Save_writes_nil m rt rw session w (Or.inr ⟨x, henc⟩)] at hmem
        simp at hmem
      | ok encoded =>
        obtain ⟨c, e, hw, h1, h2⟩ :=
          Save_update_expiry m rt rw session w encoded hid hnew hlo hhi hv henc
        rw [hw] at hmem
        simp only [List.mem_singleton, Event.query.injEq, Stmt.stmtUpdate.injEq] at hmem
        obtain ⟨-, -, he, -, -⟩ := hmem
        subst he
        exact ⟨h1, h2⟩

/-- C4 witness: the loaded session (expires_on = 2000) saved with max_age = 60 s
while the clock stands at 1000: the one write is the update of row "abc". -/
theorem Save_update_writes_max_of_candidate_and_extension_witness :
    ∃ createdOn expiresOn,
      (World.init [⟨"abc", "blob", 500, 500, 2000⟩]).writes
        (Save (memStore 60 aliceValues) (frozenRuntime 1000) [] loadedAlice
          (World.init [⟨"abc", "blob", 500, 500, 2000⟩])).2.2.1 =
        [Event.query (Stmt.stmtUpdate "blob" createdOn expiresOn createdOn loadedAlice.ID)] :=
  (Save_update_writes_max_of_candidate_and_extension (memStore 60 aliceValues)
    (frozenRuntime 1000) [] loadedAlice (World.init [⟨"abc", "blob", 500, 500, 2000⟩])
    (by decide) (by decide) (by decide) (by decide)).1 "blob" (by decide) (by decide)

/-- The update written in that run carries 1000 + 60 s, the maximum of the loaded
2000 and of now + max_age. -/
theorem Save_update_expiry_example :
    (World.init [⟨"abc", "blob", 500, 500, 2000⟩]).writes
        (Save (memStore 60 aliceValues) (frozenRuntime 1000) [] loadedAlice
          (World.init [⟨"abc", "blob", 500, 500, 2000⟩])).2.2.1 =
      [Event.query (Stmt.stmtUpdate "blob" 500 60000001000 500 "abc")] := by
  decide

/-! ## Row timestamps -/

theorem writeOf_row {σ : Type} (rt : Runtime) (s : Session) (w : World σ) (encoded : String)
    (row : sessionRow) (h : (writeOf rt s w encoded).row = some row) :
    row.createdOn = createdOnOf rt s.Values w.ticks ∧
    row.modifiedOn = createdOnOf rt s.Values w.ticks ∧
    (s.onUpdatePath = false →
      row.expiresOn = insertExpiresOnOf rt s.Values s.Options.MaxAge w.ticks) ∧
    (s.onUpdatePath = true →
      row.expiresOn = saveExpiresOnOf rt s.Values s.Options.MaxAge w.ticks) := by
  unfold writeOf at h
  split at h <;> rename_i hp <;> simp [Stmt.row] at h <;> rw [← h] <;> simp [hp]

theorem write_mem_cases {σ : Type} (m : CassandraStore σ) (rt : Runtime) (rw : ResponseWriter)
    (session : Session) (w : World σ) (s : Stmt)
    (hmem : Event.query s ∈ w.writes (Save m rt rw session w).2.2.1) :
    session.Values.timestampsValid = true ∧
    ∃ encoded, m.Codecs.EncodeValues session.name session.Values.strip = .ok encoded ∧
      s = writeOf rt session w encoded := by
  cases hv : session.Values.timestampsValid with
  | false =>
    rw [Save_writes_nil m rt rw session w (Or.inl hv)] at hmem
    simp at hmem
  | true =>
    cases henc : m.Codecs.EncodeValues session.name session.Values.strip with
    | error x =>
      rw [Save_writes_nil m rt rw session w (Or.inr ⟨x, henc⟩)] at hmem
      simp at hmem
    | ok encoded =>
      rw [Save_writes m rt rw session w encoded hv henc] at hmem
      simp only [List.mem_singleton, Event.query.injEq] at hmem
      exact ⟨rfl, encoded, rfl, hmem⟩

/-- The derived creation time lies before the call's first clock reading plus
max_age, when max_age is positive and a carried `created_on` does. -/
theorem created_lt_bound (rt : Runtime) (v : Values) (maxAge : Int) (t : Nat)
    (hpos : 0 < maxAge)
    (hcreated : ∀ c, v.get (Key.str "created_on") = Value.time c →
      c < rt.Now t + Second * maxAge) :
    createdOnOf rt v t < rt.Now t + Second * maxAge := by
  have hdpos : 0 < Second * maxAge := by
    unfold Second
    unfold Duration
    omega
  unfold createdOnOf
  split
  · rename_i c hc
    exact hcreated c hc
  · unfold Time Duration at *
    omega

/-- The expiry derived on the update path is never below the call's first clock
reading plus max_age. -/
theorem save_expires_ge_bound (rt : Runtime) (v : Values) (maxAge : Int) (t : Nat)
    (hvalid : v.timestampsValid = true)
    (hmono : ∀ i j, i ≤ j → rt.Now i ≤ rt.Now j)
    (hd : maxAgeDuration maxAge = Second * maxAge) :
    rt.Now t + Second * maxAge ≤ saveExpiresOnOf rt v maxAge t := by
  have m0 : rt.Now t ≤ rt.Now (t + createdTicks v) := hmono _ _ (by omega)
  have m1 : rt.Now t ≤ rt.Now (t + createdTicks v + 1) := hmono _ _ (by omega)
  rcases expires_valid_cases v hvalid with hex | ⟨e, hex⟩
  · rw [saveExpiresOnOf_nil rt _ _ _ hex, hd]
    exact add_le_add_right m0 _
  · rw [saveExpiresOnOf_time rt _ _ _ e hex, hd]
    split_ifs with hlt
    · exact add_le_add_right m1 _
    · exact le_trans (add_le_add_right m0 _) (not_lt.mp hlt)

/-- The expiry derived on the insert path from the clock is never below the call's
first clock reading plus max_age. -/
theorem insert_expires_ge_bound (rt : Runtime) (v : Values) (maxAge : Int) (t : Nat)
    (hex : v.get (Key.str "expires_on") = Value.nil)
    (hmono : ∀ i j, i ≤ j → rt.Now i ≤ rt.Now j)
    (hd : maxAgeDuration maxAge = Second * maxAge) :
    rt.Now t + Second * maxAge ≤ insertExpiresOnOf rt v maxAge t := by
  have m0 : rt.Now t ≤ rt.Now (t + createdTicks v) := hmono _ _ (by omega)
  simp only [insertExpiresOnOf, hex, hd]
  exact add_le_add_right m0 _

/-- The insert path writes a carried `expires_on` as it is. -/
theorem insert_expires_carried (rt : Runtime) (v : Values) (maxAge : Int) (t : Nat) (e : Time)
    (hex : v.get (Key.str "expires_on") = Value.time e) :
    insertExpiresOnOf rt v maxAge t = e := by
  simp [insertExpiresOnOf, hex]

/-- C9 (as amended): every row Save writes, on the insert path or the update
path, has modified_on equal to the derived created_on, hence created_on ≤
modified_on. Let max_age be positive (its nanosecond count fitting the duration
type), the clock never run backwards, and a `created_on` carried by the value
map be earlier than the current time plus max_age. Then on the update path the
row written has expires_on > created_on, whatever `expires_on` the value map
carries; and on the insert path it has expires_on > created_on when the value
map carries no `expires_on`. When the value map does carry an `expires_on` on
the insert path, the row gets exactly that value, uncompared, so its expires_on
exceeds its created_on exactly when the carried value does. -/
theorem Save_row_modified_is_created_and_expires_later {σ : Type} (m : CassandraStore σ)
    (rt : Runtime) (rw : ResponseWriter) (session : Session) (w : World σ) :
    (∀ s row, Event.query s ∈ w.writes (Save m rt rw session w).2.2.1 → s.row = some row →
      row.modifiedOn = row.createdOn ∧ row.createdOn ≤ row.modifiedOn) ∧
    ((∀ i j, i ≤ j → rt.Now i ≤ rt.Now j) → 0 < session.Options.MaxAge →
      Second * session.Options.MaxAge ≤ maxDuration →
      (∀ c, session.Values.get (Key.str "created_on") = Value.time c →
        c < rt.Now w.ticks + Second * session.Options.MaxAge) →
      (session.ID ≠ "" ∧ session.IsNew = false →
        ∀ s row, Event.query s ∈ w.writes (Save m rt rw session w).2.2.1 → s.row = some row →
          row.createdOn < row.expiresOn) ∧
      (session.ID = "" ∨ session.IsNew = true →
        session.Values.get (Key.str "expires_on") = Value.nil →
        ∀ s row, Event.query s ∈ w.writes (Save m rt rw session w).2.2.1 → s.row = some row →
          row.createdOn < row.expiresOn)) ∧
    (session.ID = "" ∨ session.IsNew = true →
      ∀ e, session.Values.get (Key.str "expires_on") = Value.time e →
      ∀ s row, Event.query s ∈ w.writes (Save m rt rw session w).2.2.1 → s.row = some row →
        row.expiresOn = e ∧ (row.createdOn < row.expiresOn ↔ row.createdOn < e)) := by
  have hupd : session.ID ≠ "" ∧ session.IsNew = false → session.onUpdatePath = true := by
    rintro ⟨h1, h2⟩
    simp [Session.onUpdatePath, h1, h2]
  have hins : session.ID = "" ∨ session.IsNew = true → session.onUpdatePath = false := by
    intro h
    rcases h with h | h <;> simp [Session.onUpdatePath, h]
  refine ⟨?_, ?_, ?_⟩
  · intro s row hmem hrow
    obtain ⟨-, encoded, -, hs⟩ := write_mem_cases m rt rw session w s hmem
    rw [hs] at hrow
    obtain ⟨h1, h2, -⟩ := writeOf_row rt session w encoded row hrow
    rw [h1, h2]
    exact ⟨rfl, le_refl _⟩
  · intro hmono hpos hhi hcreated
    have hd : maxAgeDuration session.Options.MaxAge = Second * session.Options.MaxAge := by
      apply maxAgeDuration_eq _ _ hhi
      unfold minDuration Second
      unfold Duration
      omega
    have hc := created_lt_bound rt session.Values session.Options.MaxAge w.ticks hpos hcreated
    refine ⟨?_, ?_⟩
    · intro hpath s row hmem hrow
      obtain ⟨hvalid, encoded, -, hs⟩ := write_mem_cases m rt rw session w s hmem
      rw [hs] at hrow
      obtain ⟨h1, -, -, h4⟩ := writeOf_row rt session w encoded row hrow
      rw [h1, h4 (hupd hpath)]
      exact lt_of_lt_of_le hc (save_expires_ge_bound rt _ _ _ hvalid hmono hd)
    · intro hpath hex s row hmem hrow
      obtain ⟨-, encoded, -, hs⟩ := write_mem_cases m rt rw session w s hmem
      rw [hs] at hrow
      obtain ⟨h1, -, h3, -⟩ := writeOf_row rt session w encoded row hrow
      rw [h1, h3 (hins hpath)]
      exact lt_of_lt_of_le hc (insert_expires_ge_bound rt _ _ _ hex hmono hd)
  · intro hpath e hex s row hmem hrow
    obtain ⟨-, encoded, -, hs⟩ := write_mem_cases m rt rw session w s hmem
    rw [hs] at hrow
    obtain ⟨-, -, h3, -⟩ := writeOf_row rt session w encoded row hrow
    have he : row.expiresOn = e := by
      rw [h3 (hins hpath)]
      exact insert_expires_carried rt _ _ _ e hex
    exact ⟨he, by rw [he]⟩

/-- C9 witness: the loaded session (created_on = 500, expires_on = 2000) saved
with max_age = 60 s on a ticking clock that starts at 1000; the updated row is
created at 500 and expires at 1001 + 60 s. -/
theorem Save_row_modified_is_created_and_expires_later_witness :
    sessionRow.createdOn ⟨"abc", "blob", 500, 500, 60000001001⟩ <
      sessionRow.expiresOn ⟨"abc", "blob", 500, 500, 60000001001⟩ :=
  ((Save_row_modified_is_created_and_expires_later (memStore 60 aliceValues)
    (tickingRuntime 1000) [] loadedAlice (World.init [⟨"abc", "blob", 500, 500, 2000⟩])).2.1
    (fun i j h => by show (1000 : Int) + i ≤ 1000 + j; omega) (by decide) (by decide)
    (fun c h => by
      have hc : c = 500 := by
        have h500 : loadedAlice.Values.get (Key.str "created_on") = Value.time 500 := by decide
        rw [h500] at h
        cases h
        rfl
      subst hc
      decide)).1 ⟨by decide, by decide⟩
    (Stmt.stmtUpdate "blob" 500 60000001001 500 "abc")
    ⟨"abc", "blob", 500, 500, 60000001001⟩
    (by decide) (by decide)

/-- C9 counterexample: three runs of a successful Save on a ticking clock that
starts at 1000, each writing a row whose expires_on is not later than its
created_on. With max_age = -1 a fresh session is inserted as created at 1000,
expiring at 1001 - 1 s. With max_age = 60 s a session not yet stored whose value
map carries created_on = 500 and expires_on = 400 is inserted with exactly these.
With max_age = 60 s a stored session whose value map carries a created_on far in
the future and no expires_on is updated to expire at 1000 + 60 s, before its
created_on. -/
theorem Save_row_expires_after_created_counterexample :
    ((Save (memStore (-1) aliceValues) (tickingRuntime 1000) []
        { freshAlice with Options := defaultOptions (-1) } (World.init [])).2.2.2 = Ret.nil ∧
     (Save (memStore (-1) aliceValues) (tickingRuntime 1000) []
        { freshAlice with Options := defaultOptions (-1) } (World.init [])).2.2.1.db =
      [⟨"00000000-0000-0000-0000-000000000001", "blob", 1000, 1000, -999998999⟩] ∧
     ¬ (∀ row ∈ (Save (memStore (-1) aliceValues) (tickingRuntime 1000) []
        { freshAlice with Options := defaultOptions (-1) } (World.init [])).2.2.1.db,
      row.createdOn ≤ row.modifiedOn ∧ row.createdOn < row.expiresOn)) ∧
    ((Save (memStore 60 aliceValues) (tickingRuntime 1000) [] backdatedAlice
        (World.init [])).2.2.2 = Ret.nil ∧
     (Save (memStore 60 aliceValues) (tickingRuntime 1000) [] backdatedAlice
        (World.init [])).2.2.1.db =
      [⟨"00000000-0000-0000-0000-000000000001", "blob", 500, 500, 400⟩] ∧
     ¬ (∀ row ∈ (Save (memStore 60 aliceValues) (tickingRuntime 1000) [] backdatedAlice
        (World.init [])).2.2.1.db,
      row.createdOn ≤ row.modifiedOn ∧ row.createdOn < row.expiresOn)) ∧
    ((Save (memStore 60 aliceValues) (tickingRuntime 1000) [] postdatedAlice
        (World.init [⟨"abc", "blob", 500, 500, 2000⟩])).2.2.2 = Ret.nil ∧
     (Save (memStore 60 aliceValues) (tickingRuntime 1000) [] postdatedAlice
        (World.init [⟨"abc", "blob", 500, 500, 2000⟩])).2.2.1.db =
      [⟨"abc", "blob", 100000000000000, 100000000000000, 60000001000⟩] ∧
     ¬ (∀ row ∈ (Save (memStore 60 aliceValues) (tickingRuntime 1000) [] postdatedAlice
        (World.init [⟨"abc", "blob", 500, 500, 2000⟩])).2.2.1.db,
      row.createdOn ≤ row.modifiedOn ∧ row.createdOn < row.expiresOn)) := by
  decide

/-! ## Round trip -/

theorem get_of_lookup_none (v : Values) (k : Key) (h : Values.lookup v k = none) :
    v.get k = Value.nil := by
  simp [Values.get, h]

/-- An assignment to a key the map does not hold puts the new entry in front. -/
theorem set_of_lookup_none (m : Values) (k : Key) (v : Value)
    (h : Values.lookup m k = none) : Values.set m k v = (k, v) :: m := by
  unfold Values.set
  rw [delete_of_lookup_none m k h]

/-- Reinjecting the three reserved keys into a map that holds none of them puts
the three entries in front of it. -/
theorem reinject_of_lookup_none (m : Values) (c mo e : Value)
    (hc : Values.lookup m (Key.str "created_on") = none)
    (hm : Values.lookup m (Key.str "modified_on") = none)
    (he : Values.lookup m (Key.str "expires_on") = none) :
    ((m.set (Key.str "created_on") c).set (Key.str "modified_on") mo).set
        (Key.str "expires_on") e =
      (Key.str "expires_on", e) :: (Key.str "modified_on", mo) ::
        (Key.str "created_on", c) :: m := by
  have h1 : Values.set m (Key.str "created_on") c = (Key.str "created_on", c) :: m :=
    set_of_lookup_none m _ c hc
  have h2 : Values.lookup ((Key.str "created_on", c) :: m) (Key.str "modified_on") = none := by
    rw [← h1, lookup_set, str_same]
    simpa using hm
  have h3 : Values.set ((Key.str "created_on", c) :: m) (Key.str "modified_on") mo =
      (Key.str "modified_on", mo) :: (Key.str "created_on", c) :: m :=
    set_of_lookup_none _ _ mo h2
  have h4 : Values.lookup ((Key.str "modified_on", mo) :: (Key.str "created_on", c) :: m)
      (Key.str "expires_on") = none := by
    rw [← h3, lookup_set, str_same, ← h1, lookup_set, str_same]
    simpa using he
  rw [h1, h3]
  exact set_of_lookup_none _ _ e h4

/-- A successful load: the decoded map with the three reserved keys reinjected. -/
theorem load_fresh {σ : Type} (m : CassandraStore σ) (rt : Runtime) (session : Session)
    (w : World σ) (row : sessionRow) (values : Values)
    (hscan : m.db.Scan w.db session.ID = .ok row)
    (hlive : ¬ row.expiresOn < rt.Now w.ticks)
    (hdec : m.Codecs.DecodeValues session.name row.data = .ok values) :
    (load m rt session w).2.2 = none ∧
    (load m rt session w).1 =
      { session with Values := values.reinject row } := by
  have h1 : ¬ Time.Sub row.expiresOn (rt.Now w.ticks) < 0 :=
    fun h => hlive ((Sub_neg_iff _ _).mp h)
  simp [load, hscan, Now, World.emit, h1, hdec, Values.reinject]

/-- C5: round trip. Assume the codec's decode inverts its encode (for identifiers
and for value maps, under the same name) and the storage select returns, for the
identifier of a successful insert, a row holding the payload that was written.
Let a session marked new hold a value map V with none of the keys `created_on`,
`modified_on`, `expires_on`, and let Save of it succeed. Then Save handed
`http.SetCookie` one cookie, named after the session (it is on the response when
that name is a valid cookie name), and the select finds a row under the
session's new identifier; and New, on any later request that carries that
cookie's value, with the table as Save left it and the clock reading before
that row's expires_on, returns no error and a session with is-new = false, the
same identifier, and a value map that is V extended with exactly the three
reserved keys, bound to the row's created_on, modified_on and expires_on: the
three entries followed by the entries of V, so that every other key reads as it
did in V. -/
theorem Save_then_New_round_trip {σ : Type} (m : CassandraStore σ) (rt : Runtime)
    (rw : ResponseWriter) (session : Session) (w : World σ)
    (hcodecID : ∀ name id tok, m.Codecs.EncodeID name id = .ok tok →
      m.Codecs.DecodeID name tok = .ok id)
    (hcodec : ∀ name v tok, m.Codecs.EncodeValues name v = .ok tok →
      m.Codecs.DecodeValues name tok = .ok v)
    (hselect : ∀ db id data c mo e, (m.db.Exec db (Stmt.stmtInsert id data c mo e)).2 = none →
      ∃ row, m.db.Scan (m.db.Exec db (Stmt.stmtInsert id data c mo e)).1 id.String = .ok row ∧
        row.data = data)
    (hnew : session.IsNew = true)
    (hV : Values.lookup session.Values (Key.str "created_on") = none ∧
      Values.lookup session.Values (Key.str "modified_on") = none ∧
      Values.lookup session.Values (Key.str "expires_on") = none)
    (hsave : (Save m rt rw session w).2.2.2 = Ret.nil) :
    ∃ cookie row,
      (Save m rt rw session w).1 = SetCookie rw cookie ∧
      (isCookieNameValid session.name = true → (Save m rt rw session w).1 = rw ++ [cookie]) ∧
      cookie.Name = session.name ∧
      m.db.Scan (Save m rt rw session w).2.2.1.db (Save m rt rw session w).2.1.ID = .ok row ∧
      ∀ (r : Request) (w2 : World σ), r.Cookie session.name = some cookie.Value →
        w2.db = (Save m rt rw session w).2.2.1.db → rt.Now w2.ticks < row.expiresOn →
        (New m rt r session.name w2).2.2 = none ∧
        (New m rt r session.name w2).1.IsNew = false ∧
        (New m rt r session.name w2).1.ID = (Save m rt rw session w).2.1.ID ∧
        (New m rt r session.name w2).1.Values =
          (Key.str "expires_on", Value.time row.expiresOn) ::
          (Key.str "modified_on", Value.time row.modifiedOn) ::
          (Key.str "created_on", Value.time row.createdOn) :: session.Values ∧
        ∀ k, Values.lookup (New m rt r session.name w2).1.Values k =
          if k = Key.str "expires_on" then some (Value.time row.expiresOn)
          else if k = Key.str "modified_on" then some (Value.time row.modifiedOn)
          else if k = Key.str "created_on" then some (Value.time row.createdOn)
          else Values.lookup session.Values k := by
  obtain ⟨hc, hm, he⟩ := hV
  have hvalid : session.Values.timestampsValid = true := by
    simp [Values.timestampsValid, get_of_lookup_none _ _ hc, get_of_lookup_none _ _ he,
      Value.isTimeOrNil]
  have hp : session.onUpdatePath = false := by simp [Session.onUpdatePath, hnew]
  cases henc : m.Codecs.EncodeValues session.name session.Values.strip with
  | error x =>
    obtain ⟨-, -, h3, -⟩ := Save_encode_error m rt rw session w x hvalid henc
    rw [h3] at hsave
    cases hsave
  | ok encoded =>
    have hstmt : writeOf rt session w encoded =
        Stmt.stmtInsert (rt.RandomUUID w.drawn) encoded (createdOnOf rt session.Values w.ticks)
          (createdOnOf rt session.Values w.ticks)
          (insertExpiresOnOf rt session.Values session.Options.MaxAge w.ticks) := by
      simp [writeOf, hp]
    have hsaved : savedOf rt session w.drawn =
        { session with Values := session.Values.strip, ID := (rt.RandomUUID w.drawn).String } := by
      simp [savedOf, hp]
    cases hexec : (m.db.Exec w.db (writeOf rt session w encoded)).2 with
    | some e =>
      obtain ⟨-, -, h3, -⟩ := Save_exec_error m rt rw session w encoded e hvalid henc hexec
      rw [h3] at hsave
      cases hsave
    | none =>
      obtain ⟨h1, -, h3, h4, h5⟩ := Save_exec_ok m rt rw session w encoded hvalid henc hexec
      rw [hsaved] at h1 h4 h5
      simp only at h4 h5
      cases hid : m.Codecs.EncodeID session.name (rt.RandomUUID w.drawn).String with
      | error x =>
        rw [(h4 x hid).1] at hsave
        cases hsave
      | ok tok =>
        obtain ⟨-, hrw⟩ := h5 tok hid
        rw [hstmt] at hexec h3
        obtain ⟨row, hscan, hdata⟩ := hselect _ _ _ _ _ _ hexec
        have hID : (Save m rt rw session w).2.1.ID = (rt.RandomUUID w.drawn).String := by
          rw [h1]
        have hstrip : session.Values.strip = session.Values :=
          strip_of_lookup_none session.Values hc hm he
        refine ⟨NewCookie session.name tok session.Options, row, hrw, ?_, rfl, ?_, ?_⟩
        · intro hname
          rw [hrw]
          simp [SetCookie, NewCookie, hname]
        · rw [h3, hID]
          exact hscan
        · intro r w2 hcook hdb hlive
          have hdecID := hcodecID _ _ _ hid
          have hdecV : m.Codecs.DecodeValues session.name row.data = .ok session.Values.strip := by
            rw [hdata]
            exact hcodec _ _ _ henc
          have hscan2 : m.db.Scan w2.db
              ({ NewSession m session.name with ID := (rt.RandomUUID w.drawn).String } : Session).ID =
              .ok row := by
            rw [hdb, h3]
            exact hscan
          obtain ⟨l1, l2⟩ := load_fresh m rt
            { NewSession m session.name with ID := (rt.RandomUUID w.drawn).String } w2 row
            session.Values.strip hscan2 (not_lt.mpr (le_of_lt hlive)) hdecV
          have hcook1 : r.Cookie session.name = some tok := hcook
          rcases hl : load m rt
            { NewSession m session.name with ID := (rt.RandomUUID w.drawn).String } w2
            with ⟨s2, w3, err⟩
          rw [hl] at l1 l2
          simp only at l1 l2
          subst l1
          have hNew : New m rt r session.name w2 = ({ s2 with IsNew := false }, w3, none) := by
            simp [New, hcook1, hdecID, hl]
          rw [hNew, hID, l2]
          refine ⟨rfl, rfl, rfl, ?_, ?_⟩
          · show Values.reinject session.Values.strip row = _
            rw [hstrip]
            exact reinject_of_lookup_none session.Values _ _ _ hc hm he
          · intro k
            show Values.lookup (Values.reinject session.Values.strip row) k = _
            rw [hstrip]
            simp only [Values.reinject, lookup_set, str_same]
            by_cases k1 : k = Key.str "expires_on"
            · simp [k1]
            · by_cases k2 : k = Key.str "modified_on"
              · simp [k2]
              · by_cases k3 : k = Key.str "created_on"
                · simp [k3]
                · simp [k1, k2, k3]

/-- The book codec decodes the identifiers it encodes. -/
theorem bookCodec_inverts_ID (book : Values) (name id tok : String)
    (h : (bookCodec book).EncodeID name id = .ok tok) :
    (bookCodec book).DecodeID name tok = .ok id := by
  simp only [bookCodec, Except.ok.injEq] at h ⊢
  exact h.symm

/-- The book codec decodes the value maps it encodes. -/
theorem bookCodec_inverts_values (book : Values) (name : String) (v : Values) (tok : String)
    (h : (bookCodec book).EncodeValues name v = .ok tok) :
    (bookCodec book).DecodeValues name tok = .ok v := by
  simp only [bookCodec] at h ⊢
  split at h
  · rename_i hv
    cases h
    simp [hv]
  · cases h

/-- The in-memory table returns the row just inserted. -/
theorem memDriver_select_after_insert (db : List sessionRow) (id : UUID) (data : String)
    (c mo e : Time) (_h : (memDriver.Exec db (Stmt.stmtInsert id data c mo e)).2 = none) :
    ∃ row, memDriver.Scan (memDriver.Exec db (Stmt.stmtInsert id data c mo e)).1 id.String =
        .ok row ∧ row.data = data := by
  refine ⟨⟨id.String, data, c, mo, e⟩, ?_, rfl⟩
  simp [memDriver, upsert, List.find?]

/-- C5 witness: the fresh session holding one entry, saved into an empty table
through the in-memory store. -/
theorem Save_then_New_round_trip_witness :
    ∃ cookie row,
      (Save (memStore 60 aliceValues) (tickingRuntime 1000) [] freshAlice (World.init [])).1 =
        SetCookie [] cookie ∧
      (isCookieNameValid freshAlice.name = true →
        (Save (memStore 60 aliceValues) (tickingRuntime 1000) [] freshAlice (World.init [])).1 =
          [] ++ [cookie]) ∧
      cookie.Name = freshAlice.name ∧
      (memStore 60 aliceValues).db.Scan
        (Save (memStore 60 aliceValues) (tickingRuntime 1000) [] freshAlice (World.init [])).2.2.1.db
        (Save (memStore 60 aliceValues) (tickingRuntime 1000) [] freshAlice (World.init [])).2.1.ID =
          .ok row ∧
      ∀ (r : Request) (w2 : World (List sessionRow)),
        r.Cookie freshAlice.name = some cookie.Value →
        w2.db = (Save (memStore 60 aliceValues) (tickingRuntime 1000) [] freshAlice
          (World.init [])).2.2.1.db →
        (tickingRuntime 1000).Now w2.ticks < row.expiresOn →
        (New (memStore 60 aliceValues) (tickingRuntime 1000) r freshAlice.name w2).2.2 = none ∧
        (New (memStore 60 aliceValues) (tickingRuntime 1000) r freshAlice.name w2).1.IsNew = false ∧
        (New (memStore 60 aliceValues) (tickingRuntime 1000) r freshAlice.name w2).1.ID =
          (Save (memStore 60 aliceValues) (tickingRuntime 1000) [] freshAlice
            (World.init [])).2.1.ID ∧
        (New (memStore 60 aliceValues) (tickingRuntime 1000) r freshAlice.name w2).1.Values =
          (Key.str "expires_on", Value.time row.expiresOn) ::
          (Key.str "modified_on", Value.time row.modifiedOn) ::
          (Key.str "created_on", Value.time row.createdOn) :: freshAlice.Values ∧
        ∀ k, Values.lookup
            (New (memStore 60 aliceValues) (tickingRuntime 1000) r freshAlice.name w2).1.Values k =
          if k = Key.str "expires_on" then some (Value.time row.expiresOn)
          else if k = Key.str "modified_on" then some (Value.time row.modifiedOn)
          else if k = Key.str "created_on" then some (Value.time row.createdOn)
          else Values.lookup freshAlice.Values k :=
  Save_then_New_round_trip (memStore 60 aliceValues) (tickingRuntime 1000) [] freshAlice
    (World.init []) (bookCodec_inverts_ID aliceValues) (bookCodec_inverts_values aliceValues)
    memDriver_select_after_insert (by decide) (by decide) (by decide)

/-- The round trip run on that input: the cookie Save emits, presented to New on
the table Save left while the clock reads 1002, gives back the identifier, is-new
= false and the value map with the three reserved keys added. -/
theorem Save_then_New_round_trip_example :
    (Save (memStore 60 aliceValues) (tickingRuntime 1000) [] freshAlice (World.init [])).1 =
      [NewCookie "sid" "00000000-0000-0000-0000-000000000001" (defaultOptions 60)] ∧
    (New (memStore 60 aliceValues) (tickingRuntime 1000)
        [("sid", "00000000-0000-0000-0000-000000000001")] "sid"
        (Save (memStore 60 aliceValues) (tickingRuntime 1000) [] freshAlice
          (World.init [])).2.2.1).1 =
      { name := "sid", ID := "00000000-0000-0000-0000-000000000001",
        Values := [(Key.str "expires_on", Value.time 60000001001),
                   (Key.str "modified_on", Value.time 1000),
                   (Key.str "created_on", Value.time 1000), (Key.str "user", Value.str "alice")],
        Options := defaultOptions 60, IsNew := false } := by
  decide

end Cassandrastore
